import Mathlib

/-!
Verification of the monsgeek-akko firmware patch layer.

Shallow embedding of the C patch handlers:
  - src/firmwares/2949-v407/patch/handlers.c        (keyboard variant)
  - src/firmwares/DONGLE_RY6108_RF_KB_V903/patch/handlers.c (dongle variant)

Machine bytes and words are modelled as `Nat` with explicit `% 2^w`
where overflow matters.  Fixed byte buffers are modelled as `Nat → Nat`
(index to byte value); writes are functional updates.  Fire-and-forget
endpoint transmissions are modelled as `Option (List Nat)` outputs
(`some bytes` = a transmission of exactly those bytes was started,
`none` = no transmission this invocation).
-/

namespace FwPatch

/-! ## Constants (handlers.c) -/

def IF1_RDESC_LEN : Nat := 171

def LED_BUF_SIZE : Nat := 0x7B0

def LED_COUNT : Nat := 82

def MATRIX_LEN : Nat := 96

def LOG_BUF_SIZE : Nat := 512

def RTT_BUF_SIZE : Nat := 256

/-- The 46-byte battery HID report sub-descriptor `battery_rdesc`,
with the hid_desc.h builder macros expanded to their literal bytes. -/
def battery_rdesc : List Nat :=
  [0x05, 0x01,                    -- HID_USAGE_PAGE (Desktop)
   0x09, 0x06,                    -- HID_USAGE (Keyboard)
   0xA1, 0x01,                    -- HID_COLLECTION (Application)
   0x85, 0x07,                    -- HID_REPORT_ID (7)
   0x05, 0x06,                    -- HID_USAGE_PAGE (Generic Device)
   0x09, 0x20,                    -- HID_USAGE (Battery Strength)
   0x15, 0x00,                    -- HID_LOGICAL_MIN (0)
   0x26, 0x64, 0x00,              -- HID_LOGICAL_MAX_N (100, 2)
   0x75, 0x08,                    -- HID_REPORT_SIZE (8)
   0x95, 0x01,                    -- HID_REPORT_COUNT (1)
   0xB1, 0x02,                    -- HID_FEATURE (Data|Var|Abs)
   0x09, 0x20,                    -- HID_USAGE (Battery Strength)
   0x81, 0x02,                    -- HID_INPUT (Data|Var|Abs)
   0x05, 0x85,                    -- HID_USAGE_PAGE (Battery System)
   0x09, 0x44,                    -- HID_USAGE (Battery Charging)
   0x15, 0x00,                    -- HID_LOGICAL_MIN (0)
   0x25, 0x01,                    -- HID_LOGICAL_MAX (1)
   0x75, 0x08,                    -- HID_REPORT_SIZE (8)
   0x95, 0x01,                    -- HID_REPORT_COUNT (1)
   0xB1, 0x02,                    -- HID_FEATURE (Data|Var|Abs)
   0x09, 0x44,                    -- HID_USAGE (Battery Charging)
   0x81, 0x02,                    -- HID_INPUT (Data|Var|Abs)
   0xC0]                          -- HID_COLLECTION_END

def BATTERY_RDESC_LEN : Nat := battery_rdesc.length

def EXTENDED_RDESC_LEN : Nat := IF1_RDESC_LEN + BATTERY_RDESC_LEN

/-! ## DescriptorExtender

State of the extended report-descriptor buffer plus the four cached
2-byte little-endian wDescriptorLength fields (the standalone IF1 HID
descriptor and the FS/HS/OS configuration-descriptor copies).  The
keyboard patches these inline in `handle_hid_setup`/`handle_usb_connect`;
the dongle's `patch_descriptors` does exactly the same stores. -/

structure DescState where
  extended : List Nat
  hdescLo : Nat
  hdescHi : Nat
  fsLo : Nat
  fsHi : Nat
  hsLo : Nat
  hsHi : Nat
  osLo : Nat
  osHi : Nat

/-- The first `IF1_RDESC_LEN` bytes of the firmware's original IF1 report
descriptor, read as a list (the `memcpy` source). -/
def origBytes (orig : Nat → Nat) : List Nat :=
  (List.range IF1_RDESC_LEN).map orig

/-- `patch_descriptors` (dongle) / the identical inline sequence in the
keyboard's `handle_hid_setup` and `handle_usb_connect`: rebuild the
extended descriptor and store `EXTENDED_RDESC_LEN` little-endian into
every cached length field. -/
def patch_descriptors (orig : Nat → Nat) (_st : DescState) : DescState :=
  { extended := origBytes orig ++ battery_rdesc
    hdescLo := EXTENDED_RDESC_LEN % 256
    hdescHi := EXTENDED_RDESC_LEN / 256 % 256
    fsLo := EXTENDED_RDESC_LEN % 256
    fsHi := EXTENDED_RDESC_LEN / 256 % 256
    hsLo := EXTENDED_RDESC_LEN % 256
    hsHi := EXTENDED_RDESC_LEN / 256 % 256
    osLo := EXTENDED_RDESC_LEN % 256
    osHi := EXTENDED_RDESC_LEN / 256 % 256 }

/-! ## LogRing (`log_buf` + `log_entry` + `handle_log_read`) -/

structure LogBuf where
  head : Nat
  count : Nat
  data : Nat → Nat

/-- One byte store into the ring: `data[head] = b; head = (head+1) % 512`. -/
def lrWriteByte (lb : LogBuf) (b : Nat) : LogBuf :=
  { lb with
    data := fun j => if j = lb.head then b else lb.data j
    head := (lb.head + 1) % LOG_BUF_SIZE }

/-- `log_entry(type, payload, len)`: write the type byte then the payload
bytes, then saturate the byte counter at `LOG_BUF_SIZE`. -/
def log_entry (lb : LogBuf) (ty : Nat) (payload : List Nat) : LogBuf :=
  let total := 1 + payload.length
  let lb1 := payload.foldl lrWriteByte (lrWriteByte lb ty)
  if lb1.count ≤ LOG_BUF_SIZE - total then
    { lb1 with count := lb1.count + total }
  else
    { lb1 with count := LOG_BUF_SIZE }

/-- A sequence of `log_entry` appends (record = type byte × payload). -/
def log_entries (lb : LogBuf) : List (Nat × List Nat) → LogBuf
  | [] => lb
  | r :: rest => log_entries (log_entry lb r.1 r.2) rest

/-- `handle_log_read` (opcode 0xFD): header {count LE16, head LE16,
capacity high byte} at bytes 3..7, then a 56-byte ring slice starting at
`page*56` (bytes 8..63); positions at or beyond the 512-byte capacity are
zero-filled; finally `buf[0] = 0`.  Returns the updated mailbox and 1. -/
def handle_log_read (lb : LogBuf) (buf : Nat → Nat) : (Nat → Nat) × Nat :=
  let page := buf 3
  let offset := page * 56
  let buf' := fun j =>
    if j = 0 then 0
    else if j = 3 then lb.count % 256
    else if j = 4 then lb.count / 256 % 256
    else if j = 5 then lb.head % 256
    else if j = 6 then lb.head / 256 % 256
    else if j = 7 then LOG_BUF_SIZE / 256 % 256
    else if 8 ≤ j ∧ j < 64 then
      (if offset + (j - 8) < LOG_BUF_SIZE then lb.data ((offset + (j - 8)) % LOG_BUF_SIZE)
       else 0)
    else buf j
  (buf', 1)

/-! ## TelemetryRing (`rtt_cb.up[0]` + `rtt_emit`) -/

structure RttState where
  wr_off : Nat
  rd_off : Nat
  buf : Nat → Nat

/-- Functional store of one byte at one index. -/
def setByte (f : Nat → Nat) (i v : Nat) : Nat → Nat :=
  fun j => if j = i then v else f j

/-- `rtt_emit(tag, val)`: non-blocking 5-byte record [tag][val LE32].
Free space is computed from the producer's write offset and the
externally-advanced read offset; the record is dropped when fewer than
5 bytes are free; otherwise 5 bytes are stored sequentially and the
write offset published once at the end. -/
def rtt_emit (st : RttState) (tag val : Nat) : RttState :=
  let wr := st.wr_off
  let rd := st.rd_off
  let avail := if rd ≤ wr then RTT_BUF_SIZE - 1 - wr + rd else rd - wr - 1
  if avail < 5 then st
  else
    let b0 := setByte st.buf wr tag
    let w1 := (wr + 1) % RTT_BUF_SIZE
    let b1 := setByte b0 w1 (val % 256)
    let w2 := (w1 + 1) % RTT_BUF_SIZE
    let b2 := setByte b1 w2 (val / 256 % 256)
    let w3 := (w2 + 1) % RTT_BUF_SIZE
    let b3 := setByte b2 w3 (val / 65536 % 256)
    let w4 := (w3 + 1) % RTT_BUF_SIZE
    let b4 := setByte b3 w4 (val / 16777216 % 256)
    let w5 := (w4 + 1) % RTT_BUF_SIZE
    { wr_off := w5, rd_off := rd, buf := b4 }

/-! ## DiagnosticsRecord (`diag`) -/

structure Diag where
  hid_setup_calls : Nat
  hid_setup_intercepts : Nat
  last_bmReqType : Nat
  last_bRequest : Nat
  last_wValue : Nat
  last_wIndex : Nat
  last_wLength : Nat
  last_battery_level : Nat
  last_result : Nat

/-! ## Setup Packet View and keyboard environment -/

/-- `udev->setup` fields (keyboard variant: the setup packet is embedded
in the device handle and read field-wise). -/
structure SetupPkt where
  bmRequestType : Nat
  bRequest : Nat
  wValue : Nat
  wIndex : Nat
  wLength : Nat

/-- The 8 raw little-endian bytes of the setup packet, as logged by
`log_entry(LOG_HID_SETUP_ENTRY, &udev->setup, 8)`. -/
def setupBytes (pkt : SetupPkt) : List Nat :=
  [pkt.bmRequestType, pkt.bRequest,
   pkt.wValue % 256, pkt.wValue / 256 % 256,
   pkt.wIndex % 256, pkt.wIndex / 256 % 256,
   pkt.wLength % 256, pkt.wLength / 256 % 256]

/-- Externally-owned raw state read by `fill_patch_info_response`
(byte view of `g_kbd_state` plus the memory-mapped registers). -/
structure KbRegs where
  kbd : Nat → Nat
  adc_ctr : Nat
  adc_avg : Nat
  adc_s0 : Nat
  gpioc_idr : Nat
  gpiob_idr : Nat

/-- Externally-owned inputs of one keyboard handler invocation:
`g_battery_level`, `g_charger_connected`, the EP2-ready byte at
0x20000023, and the raw register snapshot. -/
structure KbEnv where
  battery_level : Nat
  charger_connected : Nat
  ep2_ready : Nat
  regs : KbRegs

/-! ## Keyboard SetupFilter (`handle_hid_setup`, 2949-v407) -/

/-- Log entry type bytes. -/
def LOG_HID_SETUP_ENTRY : Nat := 0x01

def LOG_HID_SETUP_RESULT : Nat := 0x02

def LOG_VENDOR_CMD_ENTRY : Nat := 0x03

def LOG_USB_CONNECT : Nat := 0x04

/-- Result of one `handle_hid_setup` invocation (keyboard). `ep0`/`ep2`
record the control-endpoint / interrupt-endpoint transmissions started
(`none` = no transmission). -/
structure HidSetupResult where
  ret : Nat
  ep0 : Option (List Nat)
  ep2 : Option (List Nat)
  desc : DescState
  diag : Diag
  log : LogBuf

/-- `handle_hid_setup(udev)` (keyboard): update diagnostics, log the
setup packet, rebuild/patch descriptors, then intercept only
GET_REPORT(Feature, ID 7) on interface 1: respond on EP0 with
`min(wLength,3)` bytes of `[7, level, charging]`, push the same bytes
on EP2 when it is ready, and return 1; anything else returns 0. -/
def handle_hid_setup (orig : Nat → Nat) (env : KbEnv) (d : Diag) (lb : LogBuf)
    (ds : DescState) (pkt : SetupPkt) : HidSetupResult :=
  let d1 : Diag :=
    { d with
      hid_setup_calls := d.hid_setup_calls + 1
      last_bmReqType := pkt.bmRequestType
      last_bRequest := pkt.bRequest
      last_wValue := pkt.wValue
      last_wIndex := pkt.wIndex
      last_wLength := pkt.wLength }
  let lb1 := log_entry lb LOG_HID_SETUP_ENTRY (setupBytes pkt)
  let ds1 := patch_descriptors orig ds
  if pkt.wIndex = 1 ∧ pkt.bmRequestType = 0xA1 ∧ pkt.bRequest = 0x01 then
    if pkt.wValue = 0x0307 then
      let bat_level := env.battery_level
      let charging := env.charger_connected
      let bat_report : List Nat := [0x07, bat_level, charging]
      let xfer_len := if pkt.wLength < 3 then pkt.wLength else 3
      let ep0 := some (bat_report.take xfer_len)
      let ep2 := if env.ep2_ready ≠ 0 then some [0x07, bat_level, charging] else none
      let d2 : Diag :=
        { d1 with
          last_battery_level := bat_level
          last_result := 1
          hid_setup_intercepts := d1.hid_setup_intercepts + 1 }
      let lb2 := log_entry lb1 LOG_HID_SETUP_RESULT [1, bat_level]
      ⟨1, ep0, ep2, ds1, d2, lb2⟩
    else
      ⟨0, none, none, ds1, { d1 with last_result := 0 },
        log_entry lb1 LOG_HID_SETUP_RESULT [0, 0]⟩
  else
    ⟨0, none, none, ds1, { d1 with last_result := 0 },
      log_entry lb1 LOG_HID_SETUP_RESULT [0, 0]⟩

/-! ## Dongle SetupFilter (`handle_hid_setup`, DONGLE_RY6108) -/

/-- Externally-owned inputs of one dongle invocation: the cached
keyboard battery fields of `g_dongle_state`, plus the physical state of
the EP2 interrupt endpoint.  The dongle code never consults
`ep2_idle` — it is carried only to express claims about endpoint-busy
situations. -/
structure DongleEnv where
  kb_battery_info : Nat
  kb_charging : Nat
  ep2_idle : Bool

/-- Result of one dongle `handle_hid_setup` invocation. -/
structure DongleHidResult where
  ret : Nat
  ep0 : Option (List Nat)
  ep2 : Option (List Nat)
  desc : DescState

/-- `handle_hid_setup(udev, setup_pkt)` (dongle): the setup packet is a
separate raw byte pointer; fields are assembled little-endian.  Always
rebuilds/patches the descriptors, intercepts the same battery
GET_REPORT pattern, and pushes the Input report on EP2 unconditionally. -/
def dongle_handle_hid_setup (orig : Nat → Nat) (env : DongleEnv) (ds : DescState)
    (sp : Nat → Nat) : DongleHidResult :=
  let bmReqType := sp 0 % 256
  let bRequest := sp 1 % 256
  let wValue := sp 2 % 256 + sp 3 % 256 * 256
  let wIndex := sp 4 % 256 + sp 5 % 256 * 256
  let wLength := sp 6 % 256 + sp 7 % 256 * 256
  let ds1 := patch_descriptors orig ds
  if wIndex = 1 ∧ bmReqType = 0xA1 ∧ bRequest = 0x01 then
    if wValue = 0x0307 then
      let bat_level := env.kb_battery_info
      let charging := env.kb_charging
      let bat_report : List Nat := [0x07, bat_level, charging]
      let xfer_len := if wLength < 3 then wLength else 3
      ⟨1, some (bat_report.take xfer_len), some [0x07, bat_level, charging], ds1⟩
    else
      ⟨0, none, none, ds1⟩
  else
    ⟨0, none, none, ds1⟩

/-- `handle_rf_dispatch` persisted statics (dongle; .bss, start at 0). -/
structure RfState where
  prev_inited : Nat
  prev_battery : Nat
  prev_charging : Nat

/-- `handle_rf_dispatch` (dongle): push a battery Input report on EP2
whenever the cached battery level or charging flag differs from the
previously observed values; the `prev_inited` flag makes the very first
observation always count as a change. -/
def handle_rf_dispatch (env : DongleEnv) (st : RfState) :
    RfState × Option (List Nat) :=
  let bat := env.kb_battery_info
  let chg := env.kb_charging
  if st.prev_inited = 0 ∨ bat ≠ st.prev_battery ∨ chg ≠ st.prev_charging then
    (⟨1, bat, chg⟩, some [0x07, bat, chg])
  else
    (st, none)

/-! ## LedStreamEngine (`handle_led_stream`, keyboard) -/

/-- LED engine state: the streaming flag and saved animation mode
(statics), the firmware's `led_effect_mode` config field, and the two
LED byte buffers (`g_led_frame_buf`, `g_led_dma_buf`). -/
structure LedState where
  stream_active : Nat
  saved_led_effect_mode : Nat
  led_effect_mode : Nat
  frame : Nat → Nat
  dma : Nat → Nat

/-- `encode_ws2812_byte(p, val)`: each bit (MSB first) expands to one
output byte, 1 → 0xF0 (long pulse), 0 → 0xC0 (short pulse). -/
def encode_ws2812_byte (v : Nat) : List Nat :=
  [if v.testBit 7 then 0xF0 else 0xC0,
   if v.testBit 6 then 0xF0 else 0xC0,
   if v.testBit 5 then 0xF0 else 0xC0,
   if v.testBit 4 then 0xF0 else 0xC0,
   if v.testBit 3 then 0xF0 else 0xC0,
   if v.testBit 2 then 0xF0 else 0xC0,
   if v.testBit 1 then 0xF0 else 0xC0,
   if v.testBit 0 then 0xF0 else 0xC0]

/-- Store a byte list at consecutive buffer offsets starting at `base`. -/
def writeBlock (f : Nat → Nat) (base : Nat) (bytes : List Nat) : Nat → Nat :=
  fun j => if base ≤ j ∧ j < base + bytes.length then bytes.getD (j - base) 0 else f j

/-- One iteration of the data-page loop: look up the strip index of
logical position `start + i`, skip it when it is at or beyond
`LED_COUNT` (sentinel / gap), otherwise encode the i-th RGB triple of
the payload in GRB wire order into the 24 bytes at `strip_idx * 24`. -/
def pageWriteStep (posTbl : Nat → Nat) (buf : Nat → Nat) (start : Nat)
    (frame : Nat → Nat) (i : Nat) : Nat → Nat :=
  let strip_idx := posTbl (start + i)
  if LED_COUNT ≤ strip_idx then frame
  else
    let r := buf (4 + i * 3)
    let g := buf (4 + i * 3 + 1)
    let b := buf (4 + i * 3 + 2)
    writeBlock frame (strip_idx * 24)
      (encode_ws2812_byte g ++ encode_ws2812_byte r ++ encode_ws2812_byte b)

/-- `handle_led_stream(buf)`: page 0xFF commits the frame buffer into
the DMA (display) buffer; page 0xFE releases streaming and restores the
saved animation mode; pages below 7 write up to 18 RGB triples (loop
runs while `i < 18` and `start + i < MATRIX_LEN`), capturing and
suppressing the animation mode on the first data-page write; any other
page is passthrough.  Result: (state, mailbox, verdict). -/
def handle_led_stream (posTbl : Nat → Nat) (st : LedState) (buf : Nat → Nat) :
    LedState × (Nat → Nat) × Nat :=
  let page := buf 3
  if page = 0xFF then
    ({ st with dma := fun j => if j < LED_BUF_SIZE then st.frame j else st.dma j },
     setByte buf 0 0, 1)
  else if page = 0xFE then
    (if st.stream_active ≠ 0 then
      { st with stream_active := 0, led_effect_mode := st.saved_led_effect_mode }
     else st,
     setByte buf 0 0, 1)
  else if page < 7 then
    let st1 :=
      if st.stream_active = 0 then
        { st with
          stream_active := 1
          saved_led_effect_mode := st.led_effect_mode
          led_effect_mode := 0xFF }
      else st
    let start := page * 18
    let frame' :=
      (List.range (min 18 (MATRIX_LEN - start))).foldl
        (pageWriteStep posTbl buf start) st1.frame
    ({ st1 with frame := frame' }, setByte buf 0 0, 1)
  else
    (st, buf, 0)

/-- Apply `handle_led_stream` to a sequence of mailbox buffers,
threading the engine state (each command's verdict and mailbox result
are dropped; only the state evolution matters here). -/
def ledRun (posTbl : Nat → Nat) (st : LedState) : List (Nat → Nat) → LedState
  | [] => st
  | b :: rest => ledRun posTbl (handle_led_stream posTbl st b).1 rest

/-! ## Patch info (`fill_patch_info_response` / `handle_patch_info`) -/

/-- `fill_patch_info_response(buf)`: fixed response block — magic,
version, capabilities, ASCII name MONSMOD, diagnostics bytes, raw
`g_kbd_state` fields and register snapshots — written at bytes 3..49. -/
def fill_patch_info_response (regs : KbRegs) (d : Diag) (buf : Nat → Nat) :
    Nat → Nat :=
  fun j =>
    if j = 3 then 0xCA
    else if j = 4 then 0xFE
    else if j = 5 then 1
    else if j = 6 then 0x07
    else if j = 7 then 0x00
    else if j = 8 then 0x4D  -- M
    else if j = 9 then 0x4F  -- O
    else if j = 10 then 0x4E -- N
    else if j = 11 then 0x53 -- S
    else if j = 12 then 0x4D -- M
    else if j = 13 then 0x4F -- O
    else if j = 14 then 0x44 -- D
    else if j = 15 then 0x00
    else if j = 16 then d.hid_setup_calls % 256
    else if j = 17 then d.hid_setup_calls / 256 % 256
    else if j = 18 then d.hid_setup_intercepts % 256
    else if j = 19 then d.hid_setup_intercepts / 256 % 256
    else if j = 20 then d.last_bmReqType
    else if j = 21 then d.last_bRequest
    else if j = 22 then d.last_wValue % 256
    else if j = 23 then d.last_wValue / 256 % 256
    else if j = 24 then d.last_wIndex % 256
    else if j = 25 then d.last_wIndex / 256 % 256
    else if j = 26 then d.last_wLength % 256
    else if j = 27 then d.last_wLength / 256 % 256
    else if j = 28 then d.last_battery_level
    else if j = 29 then d.last_result
    else if j = 30 then regs.kbd 0x40
    else if j = 31 then regs.kbd 0x41
    else if j = 32 then regs.kbd 0x42
    else if j = 33 then regs.kbd 0x43
    else if j = 34 then regs.kbd 0x44
    else if j = 35 then regs.kbd 0x45
    else if j = 36 then regs.adc_ctr % 256
    else if j = 37 then regs.adc_ctr / 256 % 256
    else if j = 38 then regs.kbd 0x00
    else if j = 39 then regs.kbd 0x01
    else if j = 40 then regs.kbd 0x4D
    else if j = 41 then regs.kbd 0x04
    else if j = 42 then regs.adc_avg % 256
    else if j = 43 then regs.adc_avg / 256 % 256
    else if j = 44 then regs.adc_s0 % 256
    else if j = 45 then regs.adc_s0 / 256 % 256
    else if j = 46 then regs.gpioc_idr % 256
    else if j = 47 then regs.gpioc_idr / 256 % 256
    else if j = 48 then regs.gpiob_idr % 256
    else if j = 49 then regs.gpiob_idr / 256 % 256
    else buf j

/-- `handle_patch_info`: fill the response, then mark the mailbox
consumed (`buf[0] = 0`) and return 1. -/
def handle_patch_info (regs : KbRegs) (d : Diag) (buf : Nat → Nat) :
    (Nat → Nat) × Nat :=
  (setByte (fill_patch_info_response regs d buf) 0 0, 1)

/-! ## VendorDispatcher (`handle_vendor_cmd`, keyboard) -/

/-- Result of one `handle_vendor_cmd` invocation. -/
structure VendorResult where
  prev_charging : Nat
  ep2 : Option (List Nat)
  log : LogBuf
  led : LedState
  cmd : Nat → Nat
  ret : Nat

/-- `handle_vendor_cmd()` (keyboard): first (unconditionally) compare
the charging flag with the persisted previous value and, on change,
push a battery Input report when EP2 is ready; then, when the mailbox
pending byte `cmd[0]` is set, log the command (except log-read) and
dispatch on the opcode byte `cmd[2]`: 0xFB patch-info, 0xFC led-stream,
0xFD log-read, anything else passthrough. -/
def handle_vendor_cmd (posTbl : Nat → Nat) (env : KbEnv) (d : Diag)
    (prev_charging : Nat) (lb : LogBuf) (led : LedState) (cmd : Nat → Nat) :
    VendorResult :=
  let cur_charging := env.charger_connected
  let changed := cur_charging ≠ prev_charging
  let prev' := if changed then cur_charging else prev_charging
  let ep2 :=
    if changed ∧ env.ep2_ready ≠ 0 then
      some [0x07, env.battery_level, cur_charging]
    else none
  if cmd 0 = 0 then
    ⟨prev', ep2, lb, led, cmd, 0⟩
  else
    let lb1 := if cmd 2 ≠ 0xFD then log_entry lb LOG_VENDOR_CMD_ENTRY [cmd 0, cmd 2] else lb
    if cmd 2 = 0xFB then
      let r := handle_patch_info env.regs d cmd
      ⟨prev', ep2, lb1, led, r.1, r.2⟩
    else if cmd 2 = 0xFC then
      let r := handle_led_stream posTbl led cmd
      ⟨prev', ep2, lb1, r.1, r.2.1, r.2.2⟩
    else if cmd 2 = 0xFD then
      let r := handle_log_read lb1 cmd
      ⟨prev', ep2, lb1, led, r.1, r.2⟩
    else
      ⟨prev', ep2, lb1, led, cmd, 0⟩

/-- Fold `handle_vendor_cmd` over a list of per-invocation inputs
(environment snapshot and mailbox content), counting the proactive
battery Input-report pushes. -/
def vendorPushCount (posTbl : Nat → Nat) (d : Diag) (prev : Nat) (lb : LogBuf)
    (led : LedState) : List (KbEnv × (Nat → Nat)) → Nat
  | [] => 0
  | (env, cmd) :: rest =>
    let r := handle_vendor_cmd posTbl env d prev lb led cmd
    (if r.ep2.isSome then 1 else 0) +
      vendorPushCount posTbl d r.prev_charging r.log r.led rest

/-- The number of charging-flag changes between consecutive
invocations at which EP2 is idle, relative to a given starting value of
the persisted previous observation. -/
def chargeTogglesIdle (prev : Nat) : List (KbEnv × (Nat → Nat)) → Nat
  | [] => 0
  | (env, _) :: rest =>
    (if env.charger_connected ≠ prev ∧ env.ep2_ready ≠ 0 then 1 else 0) +
      chargeTogglesIdle env.charger_connected rest

/-! ## USB connect hook (keyboard) -/

/-- `rtt_init()`: zeroed ring, both offsets 0. -/
def rtt_init : RttState := ⟨0, 0, fun _ => 0⟩

/-- `handle_usb_connect()` (keyboard): log the connect event,
re-initialize the RTT control block, and run the same descriptor
rebuild/length-patch stores as the class-setup path; passthrough (0). -/
def handle_usb_connect (orig : Nat → Nat) (lb : LogBuf) (ds : DescState) :
    LogBuf × RttState × DescState × Nat :=
  (log_entry lb LOG_USB_CONNECT [], rtt_init, patch_descriptors orig ds, 0)

/-! ## Shared concrete fixtures (used to instantiate theorems) -/

def zeroDesc : DescState := ⟨[], 0, 0, 0, 0, 0, 0, 0, 0⟩

def zeroDiag : Diag := ⟨0, 0, 0, 0, 0, 0, 0, 0, 0⟩

def zeroLogBuf : LogBuf := ⟨0, 0, fun _ => 0⟩

def zeroLed : LedState := ⟨0, 0, 0, fun _ => 0, fun _ => 0⟩

def zeroRegs : KbRegs := ⟨fun _ => 0, 0, 0, 0, 0, 0⟩

/-- A matched battery GET_REPORT setup packet with wLength = 2. -/
def pktBattery : SetupPkt := ⟨0xA1, 0x01, 0x0307, 1, 2⟩

/-- The same packet as the dongle's raw little-endian byte view. -/
def spBattery : Nat → Nat :=
  fun j => [0xA1, 0x01, 0x07, 0x03, 0x01, 0x00, 0x02, 0x00].getD j 0

/-! ## Derived definitions for the LogRing analysis -/

/-- The byte-level effect of a sequence of ring stores (the writes
performed by `log_entry` before the counter update). -/
def writeBytes (lb : LogBuf) (L : List Nat) : LogBuf :=
  L.foldl lrWriteByte lb

/-- The flattened byte stream of a record sequence: each record
contributes its type byte followed by its payload. -/
def streamOf (rs : List (Nat × List Nat)) : List Nat :=
  (rs.map (fun r => r.1 :: r.2)).flatten

/-- Total bytes (1 type byte + payload) of a record sequence. -/
def sumTotals (rs : List (Nat × List Nat)) : Nat :=
  (rs.map (fun r => 1 + r.2.length)).sum

/-- A distinctive byte pattern for the 600-record write test. -/
def c8Byte (i : Nat) : Nat := (i * 7 + 3) % 256

/-- 600 records, each with a one-byte payload (2 bytes per record,
1200 bytes total, against the 512-byte ring). -/
def c8Records : List (Nat × List Nat) :=
  (List.range 600).map (fun n => (c8Byte (2 * n), [c8Byte (2 * n + 1)]))

/-- The flattened 1200-byte stream of `c8Records`. -/
def c8Stream : List Nat := (List.range 1200).map c8Byte

/-- The ring state after writing the 600 records into the
zero-initialized ring. -/
def c8Final : LogBuf := log_entries zeroLogBuf c8Records

/-- A log-read mailbox requesting page `p`. -/
def c8Page (p : Nat) : Nat → Nat := fun j => if j = 3 then p else 0

/-! ## Derived definitions for the LED stream analysis -/

/-- Decode 8 pulse bytes (MSB first, 0xF0 = 1-bit) back to the byte
value they encode. -/
def decode8 (l : List Nat) : Nat :=
  l.foldl (fun acc b => acc * 2 + (if b = 0xF0 then 1 else 0)) 0

/-- The write of one logical position, with the page number and
payload index recovered from the position (page = pos / 18,
index = pos % 18); `bufs p` is the mailbox submitted for page p.
`pageWriteStep` for page p at index i coincides with this at
position p * 18 + i. -/
def posWrite (posTbl : Nat → Nat) (bufs : Nat → Nat → Nat)
    (frame : Nat → Nat) (pos : Nat) : Nat → Nat :=
  let strip_idx := posTbl pos
  if LED_COUNT ≤ strip_idx then frame
  else
    writeBlock frame (strip_idx * 24)
      (encode_ws2812_byte (bufs (pos / 18) (4 + pos % 18 * 3 + 1)) ++
       encode_ws2812_byte (bufs (pos / 18) (4 + pos % 18 * 3)) ++
       encode_ws2812_byte (bufs (pos / 18) (4 + pos % 18 * 3 + 2)))

/-- The full streaming round: submit the six data pages covering all
96 logical positions (page p from mailbox `bufs p`), then commit. -/
def c3Run (posTbl : Nat → Nat) (st0 : LedState) (bufs : Nat → Nat → Nat)
    (cbuf : Nat → Nat) : LedState :=
  ledRun posTbl st0 [bufs 0, bufs 1, bufs 2, bufs 3, bufs 4, bufs 5, cbuf]

/-- A concrete position map: identity below 82, sentinel 0xFF above
(injective on its non-sentinel entries). -/
def c3PosTbl : Nat → Nat := fun p => if p < 82 then p else 0xFF

/-- Concrete page mailboxes: byte 3 carries the page number, the
payload bytes a distinctive byte pattern. -/
def c3Bufs : Nat → Nat → Nat :=
  fun p j => if j = 3 then p % 256 else (p * 31 + j) % 256

/-- A commit mailbox (page byte 0xFF). -/
def c3Cbuf : Nat → Nat := fun j => if j = 3 then 0xFF else 0

/-- A release mailbox (page byte 0xFE). -/
def c3Rbuf : Nat → Nat := fun j => if j = 3 then 0xFE else 0

/-! ## C2: descriptor extension is idempotent -/

/-- C2: for any number n ≥ 1 of repeated invocations of the
rebuild/patch-lengths path, the extended descriptor buffer equals the
original 171 bytes followed by the 46-byte battery sub-descriptor
(total length 217), and every cached length field (standalone HID
descriptor and FS/HS/OS configuration-descriptor copies) holds the
little-endian bytes of 217; moreover both the USB-connect hook and
every class-setup call run exactly this path. -/
theorem descriptor_extension_idempotent_c2 (orig : Nat → Nat) (st : DescState)
    (n : Nat) (hn : 1 ≤ n) (env : KbEnv) (d : Diag) (lb : LogBuf)
    (pkt : SetupPkt) :
    (((patch_descriptors orig)^[n] st).extended = origBytes orig ++ battery_rdesc ∧
      ((patch_descriptors orig)^[n] st).extended.length = 217 ∧
      ((patch_descriptors orig)^[n] st).hdescLo = 217 ∧
      ((patch_descriptors orig)^[n] st).hdescHi = 0 ∧
      ((patch_descriptors orig)^[n] st).fsLo = 217 ∧
      ((patch_descriptors orig)^[n] st).fsHi = 0 ∧
      ((patch_descriptors orig)^[n] st).hsLo = 217 ∧
      ((patch_descriptors orig)^[n] st).hsHi = 0 ∧
      ((patch_descriptors orig)^[n] st).osLo = 217 ∧
      ((patch_descriptors orig)^[n] st).osHi = 0) ∧
    (handle_usb_connect orig lb st).2.2.1 = patch_descriptors orig st ∧
    (handle_hid_setup orig env d lb st pkt).desc = patch_descriptors orig st := by
  obtain ⟨m, rfl⟩ : ∃ m, n = m + 1 := ⟨n - 1, by omega⟩
  rw [Function.iterate_succ_apply']
  refine ⟨⟨rfl, ?_, rfl, rfl, rfl, rfl, rfl, rfl, rfl, rfl⟩, rfl, ?_⟩
  · show (origBytes orig ++ battery_rdesc).length = 217
    simp [origBytes, battery_rdesc, IF1_RDESC_LEN]
  · unfold handle_hid_setup
    split <;> first | (split <;> rfl) | rfl

/-- C2 witness: the idempotence theorem applied at a concrete state,
original descriptor, and n = 2. -/
theorem descriptor_extension_idempotent_c2_witness :
    (1 ≤ 2) ∧
    ((((patch_descriptors (fun _ => 0))^[2] zeroDesc).extended =
        origBytes (fun _ => 0) ++ battery_rdesc ∧
      (((patch_descriptors (fun _ => 0))^[2] zeroDesc).extended.length = 217) ∧
      ((patch_descriptors (fun _ => 0))^[2] zeroDesc).hdescLo = 217 ∧
      ((patch_descriptors (fun _ => 0))^[2] zeroDesc).hdescHi = 0 ∧
      ((patch_descriptors (fun _ => 0))^[2] zeroDesc).fsLo = 217 ∧
      ((patch_descriptors (fun _ => 0))^[2] zeroDesc).fsHi = 0 ∧
      ((patch_descriptors (fun _ => 0))^[2] zeroDesc).hsLo = 217 ∧
      ((patch_descriptors (fun _ => 0))^[2] zeroDesc).hsHi = 0 ∧
      ((patch_descriptors (fun _ => 0))^[2] zeroDesc).osLo = 217 ∧
      ((patch_descriptors (fun _ => 0))^[2] zeroDesc).osHi = 0) ∧
      (handle_usb_connect (fun _ => 0) zeroLogBuf zeroDesc).2.2.1 =
        patch_descriptors (fun _ => 0) zeroDesc ∧
      (handle_hid_setup (fun _ => 0) ⟨80, 1, 1, zeroRegs⟩ zeroDiag zeroLogBuf
          zeroDesc pktBattery).desc = patch_descriptors (fun _ => 0) zeroDesc) :=
  ⟨by omega,
   descriptor_extension_idempotent_c2 (fun _ => 0) zeroDesc 2 (by omega)
     ⟨80, 1, 1, zeroRegs⟩ zeroDiag zeroLogBuf pktBattery⟩

/-! ## C1: matched battery GET_REPORT -/

/-- C1: for every setup packet matching the battery pattern
(wIndex = 1, bmRequestType = 0xA1, bRequest = GET_REPORT,
wValue = (Feature, ID 7)) with requested length W, both firmware
variants compose the 3-byte report [7, level, charging] from the
current battery/charge state, transmit exactly min(W, 3) bytes of it on
the control endpoint, and return handled (non-zero). -/
theorem battery_get_report_c1
    (orig : Nat → Nat) (env : KbEnv) (d : Diag) (lb : LogBuf) (ds : DescState)
    (pkt : SetupPkt)
    (hIdx : pkt.wIndex = 1) (hTy : pkt.bmRequestType = 0xA1)
    (hReq : pkt.bRequest = 0x01) (hVal : pkt.wValue = 0x0307)
    (orig2 : Nat → Nat) (denv : DongleEnv) (ds2 : DescState) (sp : Nat → Nat)
    (h0 : sp 0 = 0xA1) (h1 : sp 1 = 0x01) (h2 : sp 2 = 0x07) (h3 : sp 3 = 0x03)
    (h4 : sp 4 = 0x01) (h5 : sp 5 = 0x00) :
    ((handle_hid_setup orig env d lb ds pkt).ep0 =
        some (([0x07, env.battery_level, env.charger_connected]).take
          (min pkt.wLength 3)) ∧
      (handle_hid_setup orig env d lb ds pkt).ret ≠ 0) ∧
    ((dongle_handle_hid_setup orig2 denv ds2 sp).ep0 =
        some (([0x07, denv.kb_battery_info, denv.kb_charging]).take
          (min (sp 6 % 256 + sp 7 % 256 * 256) 3)) ∧
      (dongle_handle_hid_setup orig2 denv ds2 sp).ret ≠ 0) := by
  have hmin : ∀ w : Nat, (if w < 3 then w else 3) = min w 3 := by
    intro w
    rcases Nat.lt_or_ge w 3 with h | h
    · rw [if_pos h]; omega
    · rw [if_neg (by omega)]; omega
  constructor
  · unfold handle_hid_setup
    rw [if_pos ⟨hIdx, hTy, hReq⟩, if_pos hVal]
    exact ⟨by rw [hmin], Nat.one_ne_zero⟩
  · unfold dongle_handle_hid_setup
    rw [h0, h1, h2, h3, h4, h5]
    rw [if_pos (by decide), if_pos (by decide)]
    exact ⟨by rw [hmin], Nat.one_ne_zero⟩

/-- C1 witness: the theorem applied to a concrete matched packet
(wLength = 2) in both variants. -/
theorem battery_get_report_c1_witness :
    (pktBattery.wIndex = 1 ∧ spBattery 0 = 0xA1) ∧
    (((handle_hid_setup (fun _ => 0) ⟨80, 1, 1, zeroRegs⟩ zeroDiag zeroLogBuf
          zeroDesc pktBattery).ep0 =
        some (([0x07, 80, 1]).take (min pktBattery.wLength 3)) ∧
      (handle_hid_setup (fun _ => 0) ⟨80, 1, 1, zeroRegs⟩ zeroDiag zeroLogBuf
          zeroDesc pktBattery).ret ≠ 0) ∧
    ((dongle_handle_hid_setup (fun _ => 0) ⟨60, 0, true⟩ zeroDesc spBattery).ep0 =
        some (([0x07, 60, 0]).take
          (min (spBattery 6 % 256 + spBattery 7 % 256 * 256) 3)) ∧
      (dongle_handle_hid_setup (fun _ => 0) ⟨60, 0, true⟩ zeroDesc spBattery).ret ≠ 0)) :=
  ⟨⟨rfl, rfl⟩,
   battery_get_report_c1 (fun _ => 0) ⟨80, 1, 1, zeroRegs⟩ zeroDiag zeroLogBuf
     zeroDesc pktBattery rfl rfl rfl rfl (fun _ => 0) ⟨60, 0, true⟩ zeroDesc
     spBattery rfl rfl rfl rfl rfl rfl⟩

/-! ## C5: Input-report push on matched battery GET_REPORT (corrected) -/

/-- C5 counterexample: in the dongle variant, a matched battery
GET_REPORT with the interrupt-IN endpoint busy (ep2_idle = false) still
starts an Input-report transmission, contradicting the claim that the
transmission happens if and only if the endpoint is idle. -/
theorem input_report_push_c5_counterexample :
    (dongle_handle_hid_setup (fun _ => 0) ⟨60, 0, false⟩ zeroDesc spBattery).ep2 =
      some [0x07, 60, 0] := by
  decide

/-- C5 (amended): on every matched battery GET_REPORT, the keyboard
firmware additionally transmits the identical 3 bytes [7, level,
charging] as an Input report on the interrupt-IN endpoint if and only
if that endpoint is currently idle (skipped, never queued, when busy);
the dongle firmware transmits the identical Input report
unconditionally, regardless of the endpoint's state. -/
theorem input_report_push_c5
    (orig : Nat → Nat) (env : KbEnv) (d : Diag) (lb : LogBuf) (ds : DescState)
    (pkt : SetupPkt)
    (hIdx : pkt.wIndex = 1) (hTy : pkt.bmRequestType = 0xA1)
    (hReq : pkt.bRequest = 0x01) (hVal : pkt.wValue = 0x0307)
    (orig2 : Nat → Nat) (denv : DongleEnv) (ds2 : DescState) (sp : Nat → Nat)
    (h0 : sp 0 = 0xA1) (h1 : sp 1 = 0x01) (h2 : sp 2 = 0x07) (h3 : sp 3 = 0x03)
    (h4 : sp 4 = 0x01) (h5 : sp 5 = 0x00) :
    ((env.ep2_ready ≠ 0 →
        (handle_hid_setup orig env d lb ds pkt).ep2 =
          some [0x07, env.battery_level, env.charger_connected]) ∧
      (env.ep2_ready = 0 → (handle_hid_setup orig env d lb ds pkt).ep2 = none)) ∧
    (dongle_handle_hid_setup orig2 denv ds2 sp).ep2 =
      some [0x07, denv.kb_battery_info, denv.kb_charging] := by
  constructor
  · unfold handle_hid_setup
    rw [if_pos ⟨hIdx, hTy, hReq⟩, if_pos hVal]
    constructor
    · intro h; simp [h]
    · intro h; simp [h]
  · unfold dongle_handle_hid_setup
    rw [h0, h1, h2, h3, h4, h5]
    norm_num

/-- C5 witness: the amended theorem applied to a concrete matched
packet, with the keyboard endpoint idle and the dongle endpoint busy. -/
theorem input_report_push_c5_witness :
    (pktBattery.wValue = 0x0307 ∧ spBattery 3 = 0x03) ∧
    ((((1 : Nat) ≠ 0 →
        (handle_hid_setup (fun _ => 0) ⟨80, 1, 1, zeroRegs⟩ zeroDiag zeroLogBuf
            zeroDesc pktBattery).ep2 = some [0x07, 80, 1]) ∧
      ((1 : Nat) = 0 →
        (handle_hid_setup (fun _ => 0) ⟨80, 1, 1, zeroRegs⟩ zeroDiag zeroLogBuf
            zeroDesc pktBattery).ep2 = none)) ∧
    (dongle_handle_hid_setup (fun _ => 0) ⟨60, 1, false⟩ zeroDesc spBattery).ep2 =
      some [0x07, 60, 1]) :=
  ⟨⟨rfl, rfl⟩,
   input_report_push_c5 (fun _ => 0) ⟨80, 1, 1, zeroRegs⟩ zeroDiag zeroLogBuf
     zeroDesc pktBattery rfl rfl rfl rfl (fun _ => 0) ⟨60, 1, false⟩ zeroDesc
     spBattery rfl rfl rfl rfl rfl rfl⟩

/-! ## C6: vendor-dispatcher mailbox discipline (corrected) -/

/-- C6 counterexample: with the pending flag set and the recognized
led-stream opcode 0xFC but page byte 7 (outside the defined page/command
set), the dispatcher returns not-handled (0) and leaves the pending
flag set — the claim predicts handled with the flag cleared for every
recognized opcode. -/
theorem vendor_dispatch_c6_counterexample :
    (handle_vendor_cmd (fun _ => 0) ⟨0, 0, 0, zeroRegs⟩ zeroDiag 0 zeroLogBuf
        zeroLed
        (fun j => if j = 0 then 1 else if j = 2 then 0xFC else if j = 3 then 7 else 0)).ret
        = 0 ∧
    (handle_vendor_cmd (fun _ => 0) ⟨0, 0, 0, zeroRegs⟩ zeroDiag 0 zeroLogBuf
        zeroLed
        (fun j => if j = 0 then 1 else if j = 2 then 0xFC else if j = 3 then 7 else 0)).cmd
        0 = 1 := by
  exact ⟨rfl, rfl⟩

/-- C6 (amended): on every dispatcher invocation with the pending flag
set, a recognized opcode whose handler accepts the command (patch-info;
led-stream with a page in the defined set: data page < 7, release 0xFE,
commit 0xFF; log-read) writes its response and clears the pending flag,
returning handled; a led-stream command with any other page value
leaves the mailbox untouched and returns not-handled; an unrecognized
opcode leaves the mailbox untouched and returns not-handled; and with
the pending flag unset the dispatcher returns not-handled without
dispatching. -/
theorem vendor_dispatch_mailbox_c6 (posTbl : Nat → Nat) (env : KbEnv) (d : Diag)
    (prev : Nat) (lb : LogBuf) (led : LedState) (cmd : Nat → Nat) :
    (cmd 0 = 0 →
      (handle_vendor_cmd posTbl env d prev lb led cmd).ret = 0 ∧
      (handle_vendor_cmd posTbl env d prev lb led cmd).cmd = cmd) ∧
    (cmd 0 ≠ 0 → cmd 2 = 0xFB →
      (handle_vendor_cmd posTbl env d prev lb led cmd).ret = 1 ∧
      (handle_vendor_cmd posTbl env d prev lb led cmd).cmd 0 = 0 ∧
      (handle_vendor_cmd posTbl env d prev lb led cmd).cmd 3 = 0xCA ∧
      (handle_vendor_cmd posTbl env d prev lb led cmd).cmd 4 = 0xFE) ∧
    (cmd 0 ≠ 0 → cmd 2 = 0xFC → (cmd 3 < 7 ∨ cmd 3 = 0xFE ∨ cmd 3 = 0xFF) →
      (handle_vendor_cmd posTbl env d prev lb led cmd).ret = 1 ∧
      (handle_vendor_cmd posTbl env d prev lb led cmd).cmd 0 = 0) ∧
    (cmd 0 ≠ 0 → cmd 2 = 0xFC → 7 ≤ cmd 3 → cmd 3 ≠ 0xFE → cmd 3 ≠ 0xFF →
      (handle_vendor_cmd posTbl env d prev lb led cmd).ret = 0 ∧
      (handle_vendor_cmd posTbl env d prev lb led cmd).cmd = cmd) ∧
    (cmd 0 ≠ 0 → cmd 2 = 0xFD →
      (handle_vendor_cmd posTbl env d prev lb led cmd).ret = 1 ∧
      (handle_vendor_cmd posTbl env d prev lb led cmd).cmd 0 = 0) ∧
    (cmd 0 ≠ 0 → cmd 2 ≠ 0xFB → cmd 2 ≠ 0xFC → cmd 2 ≠ 0xFD →
      (handle_vendor_cmd posTbl env d prev lb led cmd).ret = 0 ∧
      (handle_vendor_cmd posTbl env d prev lb led cmd).cmd = cmd) := by
  refine ⟨?_, ?_, ?_, ?_, ?_, ?_⟩
  · intro h0
    unfold handle_vendor_cmd
    rw [if_pos h0]
    exact ⟨rfl, rfl⟩
  · intro h0 hop
    unfold handle_vendor_cmd
    rw [if_neg h0, if_pos hop]
    exact ⟨rfl, rfl, rfl, rfl⟩
  · intro h0 hop hpage
    unfold handle_vendor_cmd
    rw [if_neg h0, if_neg (by rw [hop]; decide), if_pos hop]
    unfold handle_led_stream
    rcases hpage with h | h | h
    · rw [if_neg (by omega), if_neg (by omega), if_pos h]
      exact ⟨rfl, rfl⟩
    · rw [if_neg (by omega), if_pos h]
      exact ⟨rfl, rfl⟩
    · rw [if_pos h]
      exact ⟨rfl, rfl⟩
  · intro h0 hop h7 hfe hff
    unfold handle_vendor_cmd
    rw [if_neg h0, if_neg (by rw [hop]; decide), if_pos hop]
    unfold handle_led_stream
    rw [if_neg hff, if_neg hfe, if_neg (by omega)]
    exact ⟨rfl, rfl⟩
  · intro h0 hop
    unfold handle_vendor_cmd
    rw [if_neg h0, if_neg (show ¬(cmd 2 = 0xFB) by rw [hop]; decide),
      if_neg (show ¬(cmd 2 = 0xFC) by rw [hop]; decide), if_pos hop]
    exact ⟨rfl, rfl⟩
  · intro h0 hfb hfc hfd
    unfold handle_vendor_cmd
    rw [if_neg h0, if_neg hfb, if_neg hfc, if_neg hfd]
    exact ⟨rfl, rfl⟩

/-- C6 witness: the amended theorem applied to a concrete pending
patch-info command, with its handled/cleared conclusions extracted. -/
theorem vendor_dispatch_mailbox_c6_witness :
    ((fun j => if j = 0 then 1 else if j = 2 then 0xFB else (0 : Nat)) 0 ≠ 0) ∧
    ((handle_vendor_cmd (fun _ => 0) ⟨0, 0, 0, zeroRegs⟩ zeroDiag 0 zeroLogBuf
        zeroLed (fun j => if j = 0 then 1 else if j = 2 then 0xFB else 0)).ret = 1 ∧
      (handle_vendor_cmd (fun _ => 0) ⟨0, 0, 0, zeroRegs⟩ zeroDiag 0 zeroLogBuf
        zeroLed (fun j => if j = 0 then 1 else if j = 2 then 0xFB else 0)).cmd 0 = 0 ∧
      (handle_vendor_cmd (fun _ => 0) ⟨0, 0, 0, zeroRegs⟩ zeroDiag 0 zeroLogBuf
        zeroLed (fun j => if j = 0 then 1 else if j = 2 then 0xFB else 0)).cmd 3 = 0xCA ∧
      (handle_vendor_cmd (fun _ => 0) ⟨0, 0, 0, zeroRegs⟩ zeroDiag 0 zeroLogBuf
        zeroLed (fun j => if j = 0 then 1 else if j = 2 then 0xFB else 0)).cmd 4 = 0xFE) :=
  ⟨by decide,
   (vendor_dispatch_mailbox_c6 (fun _ => 0) ⟨0, 0, 0, zeroRegs⟩ zeroDiag 0
       zeroLogBuf zeroLed
       (fun j => if j = 0 then 1 else if j = 2 then 0xFB else 0)).2.1
     (by decide) (by decide)⟩

/-! ## C7: log-read response layout -/

/-- C7: for every log-read command with page number P (and every ring
state reachable from the zero-initialized ring: count ≤ capacity, head
inside the ring, bytes beyond the logical end still zero), the response
consists of the saturating byte count (2 bytes LE), the head offset
(2 bytes LE), the capacity high byte 2, and the fixed 56-byte slice of
the ring starting at P*56, wrapping modulo the 512-byte capacity, with
positions beyond the logical end of written data zero-filled. -/
theorem log_read_response_c7 (lb : LogBuf) (buf : Nat → Nat)
    (hcount : lb.count ≤ 512) (hhead : lb.head < 512)
    (hzero : ∀ j, lb.count ≤ j → j < 512 → lb.data j = 0) :
    (handle_log_read lb buf).2 = 1 ∧
    (handle_log_read lb buf).1 3 = lb.count % 256 ∧
    (handle_log_read lb buf).1 4 = lb.count / 256 ∧
    (handle_log_read lb buf).1 5 = lb.head % 256 ∧
    (handle_log_read lb buf).1 6 = lb.head / 256 ∧
    (handle_log_read lb buf).1 7 = 2 ∧
    ∀ i, i < 56 →
      (handle_log_read lb buf).1 (8 + i) =
        if buf 3 * 56 + i < lb.count then lb.data ((buf 3 * 56 + i) % 512)
        else 0 := by
  refine ⟨rfl, ?_, ?_, ?_, ?_, ?_, ?_⟩
  · simp only [handle_log_read, LOG_BUF_SIZE]
    norm_num
  · simp only [handle_log_read, LOG_BUF_SIZE]
    norm_num
    omega
  · simp only [handle_log_read, LOG_BUF_SIZE]
    norm_num
  · simp only [handle_log_read, LOG_BUF_SIZE]
    norm_num
    omega
  · simp only [handle_log_read, LOG_BUF_SIZE]
    norm_num
  · intro i hi
    simp only [handle_log_read, LOG_BUF_SIZE]
    rw [if_neg (show ¬(8 + i = 0) by omega), if_neg (show ¬(8 + i = 3) by omega),
      if_neg (show ¬(8 + i = 4) by omega), if_neg (show ¬(8 + i = 5) by omega),
      if_neg (show ¬(8 + i = 6) by omega), if_neg (show ¬(8 + i = 7) by omega),
      if_pos (show 8 ≤ 8 + i ∧ 8 + i < 64 by omega)]
    have h8 : 8 + i - 8 = i := by omega
    rw [h8]
    by_cases hlt : buf 3 * 56 + i < lb.count
    · rw [if_pos (by omega), if_pos hlt]
    · rw [if_neg hlt]
      by_cases hcap : buf 3 * 56 + i < 512
      · rw [if_pos (by omega)]
        rw [Nat.mod_eq_of_lt (by omega)]
        exact hzero _ (by omega) hcap
      · rw [if_neg (by omega)]

/-- C7 witness: the theorem applied to the zero-initialized ring and a
page-0 mailbox. -/
theorem log_read_response_c7_witness :
    (zeroLogBuf.count ≤ 512 ∧ zeroLogBuf.head < 512) ∧
    ((handle_log_read zeroLogBuf (fun _ => 0)).2 = 1 ∧
      (handle_log_read zeroLogBuf (fun _ => 0)).1 3 = zeroLogBuf.count % 256 ∧
      (handle_log_read zeroLogBuf (fun _ => 0)).1 4 = zeroLogBuf.count / 256 ∧
      (handle_log_read zeroLogBuf (fun _ => 0)).1 5 = zeroLogBuf.head % 256 ∧
      (handle_log_read zeroLogBuf (fun _ => 0)).1 6 = zeroLogBuf.head / 256 ∧
      (handle_log_read zeroLogBuf (fun _ => 0)).1 7 = 2 ∧
      ∀ i, i < 56 →
        (handle_log_read zeroLogBuf (fun _ => 0)).1 (8 + i) =
          if (fun _ => (0 : Nat)) 3 * 56 + i < zeroLogBuf.count then
            zeroLogBuf.data (((fun _ => (0 : Nat)) 3 * 56 + i) % 512)
          else 0) :=
  ⟨⟨by decide, by decide⟩,
   log_read_response_c7 zeroLogBuf (fun _ => 0) (by decide) (by decide)
     (fun _ _ _ => rfl)⟩

/-! ## C9: telemetry producer never overwrites unread data -/

/-- C9: for every 5-byte telemetry emit and every externally-advanced
read offset, the producer computes free space from the difference of
the two offsets; with fewer than 5 free bytes the record is dropped and
the state unchanged; otherwise the write offset advances by exactly 5
modulo the buffer size, never reaches the read offset, and every byte
of the unread region (the `used` bytes starting at the read offset) is
left untouched. -/
theorem rtt_emit_no_overwrite_c9 (st : RttState) (tag val : Nat)
    (hwr : st.wr_off < 256) (hrd : st.rd_off < 256) :
    ((if st.rd_off ≤ st.wr_off then 256 - 1 - st.wr_off + st.rd_off
      else st.rd_off - st.wr_off - 1) < 5 →
      rtt_emit st tag val = st) ∧
    (5 ≤ (if st.rd_off ≤ st.wr_off then 256 - 1 - st.wr_off + st.rd_off
      else st.rd_off - st.wr_off - 1) →
      (rtt_emit st tag val).wr_off = (st.wr_off + 5) % 256 ∧
      (rtt_emit st tag val).rd_off = st.rd_off ∧
      (rtt_emit st tag val).wr_off ≠ st.rd_off ∧
      (∀ j, j < (st.wr_off + 256 - st.rd_off) % 256 →
        (rtt_emit st tag val).buf ((st.rd_off + j) % 256) =
          st.buf ((st.rd_off + j) % 256))) := by
  constructor
  · intro hlt
    unfold rtt_emit RTT_BUF_SIZE
    rw [if_pos hlt]
  · intro hge
    have hnlt : ¬((if st.rd_off ≤ st.wr_off then 256 - 1 - st.wr_off + st.rd_off
        else st.rd_off - st.wr_off - 1) < 5) := by omega
    unfold rtt_emit RTT_BUF_SIZE
    rw [if_neg hnlt]
    refine ⟨?_, rfl, ?_, ?_⟩
    · show (((((st.wr_off + 1) % 256 + 1) % 256 + 1) % 256 + 1) % 256 + 1) % 256 =
        (st.wr_off + 5) % 256
      omega
    · show (((((st.wr_off + 1) % 256 + 1) % 256 + 1) % 256 + 1) % 256 + 1) % 256 ≠
        st.rd_off
      split at hge <;> omega
    · intro j hj
      show setByte
          (setByte
            (setByte
              (setByte (setByte st.buf st.wr_off tag) ((st.wr_off + 1) % 256)
                (val % 256))
              (((st.wr_off + 1) % 256 + 1) % 256) (val / 256 % 256))
            ((((st.wr_off + 1) % 256 + 1) % 256 + 1) % 256) (val / 65536 % 256))
          (((((st.wr_off + 1) % 256 + 1) % 256 + 1) % 256 + 1) % 256)
          (val / 16777216 % 256) ((st.rd_off + j) % 256) =
        st.buf ((st.rd_off + j) % 256)
      unfold setByte
      split at hge
      · -- read offset at or below write offset: used = wr - rd
        have hused : (st.wr_off + 256 - st.rd_off) % 256 = st.wr_off - st.rd_off := by
          omega
        rw [hused] at hj
        rw [if_neg (by omega), if_neg (by omega), if_neg (by omega),
          if_neg (by omega), if_neg (by omega)]
      · -- read offset above write offset: used = wr + 256 - rd
        have hused : (st.wr_off + 256 - st.rd_off) % 256 =
            st.wr_off + 256 - st.rd_off := by omega
        rw [hused] at hj
        rw [if_neg (by omega), if_neg (by omega), if_neg (by omega),
          if_neg (by omega), if_neg (by omega)]

/-- C9 witness: the theorem applied at a concrete ring state with the
write offset at 250 and the read offset at 10 (wrap-around case). -/
theorem rtt_emit_no_overwrite_c9_witness :
    ((250 : Nat) < 256 ∧ (10 : Nat) < 256) ∧
    (((if (10 : Nat) ≤ 250 then 256 - 1 - 250 + 10 else 10 - 250 - 1) < 5 →
      rtt_emit ⟨250, 10, fun _ => 0⟩ 3 77 = ⟨250, 10, fun _ => 0⟩) ∧
    (5 ≤ (if (10 : Nat) ≤ 250 then 256 - 1 - 250 + 10 else 10 - 250 - 1) →
      (rtt_emit ⟨250, 10, fun _ => 0⟩ 3 77).wr_off = (250 + 5) % 256 ∧
      (rtt_emit ⟨250, 10, fun _ => 0⟩ 3 77).rd_off = 10 ∧
      (rtt_emit ⟨250, 10, fun _ => 0⟩ 3 77).wr_off ≠ 10 ∧
      (∀ j, j < (250 + 256 - 10) % 256 →
        (rtt_emit ⟨250, 10, fun _ => 0⟩ 3 77).buf ((10 + j) % 256) =
          (fun _ => (0 : Nat)) ((10 + j) % 256)))) :=
  ⟨⟨by omega, by omega⟩, rtt_emit_no_overwrite_c9 ⟨250, 10, fun _ => 0⟩ 3 77
    (by decide) (by decide)⟩

/-! ## C4: proactive battery pushes count charging toggles (corrected) -/

/-- The charge-state check of `handle_vendor_cmd` behaves identically in
every dispatch branch: the persisted previous value becomes the current
charging flag, and an Input report is pushed exactly when the flag
changed and EP2 is ready. -/
theorem handle_vendor_cmd_charge (posTbl : Nat → Nat) (env : KbEnv) (d : Diag)
    (prev : Nat) (lb : LogBuf) (led : LedState) (cmd : Nat → Nat) :
    (handle_vendor_cmd posTbl env d prev lb led cmd).prev_charging =
      env.charger_connected ∧
    ((handle_vendor_cmd posTbl env d prev lb led cmd).ep2.isSome =
      ((env.charger_connected ≠ prev ∧ env.ep2_ready ≠ 0) : Bool)) := by
  have hprev : (if env.charger_connected ≠ prev then env.charger_connected else prev) =
      env.charger_connected := by
    split
    · rfl
    · omega
  have hep2 : (if env.charger_connected ≠ prev ∧ env.ep2_ready ≠ 0
      then some [7, env.battery_level, env.charger_connected] else none).isSome =
      ((env.charger_connected ≠ prev ∧ env.ep2_ready ≠ 0) : Bool) := by
    split <;> simp_all
  simp only [handle_vendor_cmd]
  split
  · exact ⟨hprev, hep2⟩
  · split
    · exact ⟨hprev, hep2⟩
    · split
      · exact ⟨hprev, hep2⟩
      · split
        · exact ⟨hprev, hep2⟩
        · exact ⟨hprev, hep2⟩

/-- C4 counterexample: the keyboard's persisted previous charging value
starts at 0 (zeroed .bss), not at a distinguished "unknown": on the
very first dispatcher invocation observing charging = 0 with EP2 idle,
no Input report is pushed, although the claim says the first
observation always counts as a change. -/
theorem charge_toggle_c4_counterexample :
    (handle_vendor_cmd (fun _ => 0) ⟨77, 0, 1, zeroRegs⟩ zeroDiag 0 zeroLogBuf
        zeroLed (fun _ => 0)).ep2 = none := by
  decide

/-- C4 (amended): over every sequence of keyboard vendor-dispatcher
invocations, the number of proactive battery Input-report pushes equals
the number of invocations at which the observed charging flag differs
from the previously observed value and the interrupt-IN endpoint is
idle (one push per toggle, none while unchanged), where the persisted
previous value starts at 0 = not-charging (zeroed .bss) — so a first
observation of "not charging" does not count as a change; the check
runs on every invocation whether or not a command is pending. -/
theorem charge_toggle_push_count_c4 (posTbl : Nat → Nat) (d : Diag)
    (prev : Nat) (lb : LogBuf) (led : LedState)
    (steps : List (KbEnv × (Nat → Nat))) :
    vendorPushCount posTbl d prev lb led steps = chargeTogglesIdle prev steps := by
  induction steps generalizing prev lb led with
  | nil => rfl
  | cons s rest ih =>
    obtain ⟨env, cmd⟩ := s
    have h := handle_vendor_cmd_charge posTbl env d prev lb led cmd
    show (if (handle_vendor_cmd posTbl env d prev lb led cmd).ep2.isSome then 1 else 0) +
        vendorPushCount posTbl d
          (handle_vendor_cmd posTbl env d prev lb led cmd).prev_charging
          (handle_vendor_cmd posTbl env d prev lb led cmd).log
          (handle_vendor_cmd posTbl env d prev lb led cmd).led rest =
      (if env.charger_connected ≠ prev ∧ env.ep2_ready ≠ 0 then 1 else 0) +
        chargeTogglesIdle env.charger_connected rest
    rw [h.1, h.2, ih]
    congr 1
    by_cases hc : env.charger_connected ≠ prev ∧ env.ep2_ready ≠ 0
    · simp [hc]
    · simp [hc]

/-! ## LogRing helper lemmas -/

theorem writeBytes_count (lb : LogBuf) (L : List Nat) :
    (writeBytes lb L).count = lb.count := by
  induction L generalizing lb with
  | nil => rfl
  | cons b L ih => exact (ih (lrWriteByte lb b)).trans rfl

theorem writeBytes_head (lb : LogBuf) (L : List Nat) (h : lb.head < 512) :
    (writeBytes lb L).head = (lb.head + L.length) % 512 := by
  induction L generalizing lb with
  | nil => simp [writeBytes, Nat.mod_eq_of_lt h]
  | cons b L ih =>
    show (writeBytes (lrWriteByte lb b) L).head = _
    rw [ih (lrWriteByte lb b) (by simp [lrWriteByte, LOG_BUF_SIZE]; omega)]
    simp only [lrWriteByte, LOG_BUF_SIZE, List.length_cons]
    omega

theorem writeBytes_congr (lb lb' : LogBuf) (L : List Nat)
    (hd : lb.data = lb'.data) (hh : lb.head = lb'.head) :
    (writeBytes lb L).data = (writeBytes lb' L).data ∧
    (writeBytes lb L).head = (writeBytes lb' L).head := by
  induction L generalizing lb lb' with
  | nil => exact ⟨hd, hh⟩
  | cons b L ih =>
    exact ih (lrWriteByte lb b) (lrWriteByte lb' b)
      (by simp [lrWriteByte, hd, hh]) (by simp [lrWriteByte, hh])

theorem writeBytes_append (lb : LogBuf) (L M : List Nat) :
    writeBytes lb (L ++ M) = writeBytes (writeBytes lb L) M := by
  simp [writeBytes, List.foldl_append]

/-- Placement of the most recent bytes: any byte whose stream index is
within the final 512 written bytes sits at ring index
(initial head + stream index) mod 512. -/
theorem writeBytes_data_last (L : List Nat) (lb : LogBuf) (j : Nat)
    (hhead : lb.head < 512) (hj : j < L.length) (hlast : L.length ≤ j + 512) :
    (writeBytes lb L).data ((lb.head + j) % 512) = L.getD j 0 := by
  induction L using List.reverseRecOn generalizing j with
  | nil => simp at hj
  | append_singleton M b ih =>
    rw [writeBytes_append]
    have hh : (writeBytes lb M).head = (lb.head + M.length) % 512 :=
      writeBytes_head lb M hhead
    show (if (lb.head + j) % 512 = (writeBytes lb M).head then b
        else (writeBytes lb M).data ((lb.head + j) % 512)) = _
    rcases Nat.lt_or_ge j M.length with hjM | hjM
    · rw [if_neg (by
        rw [hh]
        simp only [List.length_append, List.length_singleton] at hlast
        omega)]
      rw [ih j hjM (by
        simp only [List.length_append, List.length_singleton] at hlast ⊢
        omega)]
      rw [List.getD_append _ _ _ _ hjM]
    · have hjeq : j = M.length := by
        simp only [List.length_append, List.length_singleton] at hj
        omega
      rw [if_pos (by rw [hh, hjeq])]
      rw [hjeq, List.getD_append_right _ _ _ _ (le_refl M.length)]
      simp

/-- `log_entry` performs exactly the byte writes of its record (the
counter update leaves data and head untouched). -/
theorem log_entry_shape (lb : LogBuf) (t : Nat) (p : List Nat) :
    (log_entry lb t p).data = (writeBytes lb (t :: p)).data ∧
    (log_entry lb t p).head = (writeBytes lb (t :: p)).head := by
  simp only [log_entry]
  split <;> exact ⟨rfl, rfl⟩

theorem log_entry_count (lb : LogBuf) (t : Nat) (p : List Nat) :
    (log_entry lb t p).count =
      if lb.count ≤ 512 - (1 + p.length) then lb.count + (1 + p.length)
      else 512 := by
  have hc : (List.foldl lrWriteByte (lrWriteByte lb t) p).count = lb.count :=
    writeBytes_count lb (t :: p)
  simp only [log_entry, LOG_BUF_SIZE]
  rw [hc]
  split <;> rfl

/-- A record sequence writes exactly its flattened byte stream. -/
theorem log_entries_shape (rs : List (Nat × List Nat)) (lb : LogBuf) :
    (log_entries lb rs).data = (writeBytes lb (streamOf rs)).data ∧
    (log_entries lb rs).head = (writeBytes lb (streamOf rs)).head := by
  induction rs generalizing lb with
  | nil => exact ⟨rfl, rfl⟩
  | cons r rest ih =>
    have hs : streamOf (r :: rest) = (r.1 :: r.2) ++ streamOf rest := by
      simp [streamOf]
    rw [hs, writeBytes_append]
    have h1 := log_entry_shape lb r.1 r.2
    have h2 := writeBytes_congr (log_entry lb r.1 r.2) (writeBytes lb (r.1 :: r.2))
      (streamOf rest) h1.1 h1.2
    exact ⟨(ih (log_entry lb r.1 r.2)).1.trans h2.1,
      (ih (log_entry lb r.1 r.2)).2.trans h2.2⟩

theorem log_entries_count_le (rs : List (Nat × List Nat)) (lb : LogBuf)
    (hc : lb.count ≤ 512) (hlen : ∀ r ∈ rs, r.2.length ≤ 255) :
    (log_entries lb rs).count ≤ 512 := by
  induction rs generalizing lb with
  | nil => exact hc
  | cons r rest ih =>
    refine ih (log_entry lb r.1 r.2) ?_ (fun q hq => hlen q (List.mem_cons_of_mem r hq))
    rw [log_entry_count]
    have := hlen r (List.mem_cons_self r rest)
    split <;> omega

theorem log_entries_count_min (rs : List (Nat × List Nat)) (lb : LogBuf) (S : Nat)
    (hlen : ∀ r ∈ rs, r.2.length ≤ 255) (hc : lb.count = min S 512) :
    (log_entries lb rs).count = min (S + sumTotals rs) 512 := by
  induction rs generalizing lb S with
  | nil =>
    show lb.count = min (S + sumTotals []) 512
    simpa [sumTotals] using hc
  | cons r rest ih =>
    have hr := hlen r (List.mem_cons_self r rest)
    have hstep : (log_entry lb r.1 r.2).count = min (S + (1 + r.2.length)) 512 := by
      rw [log_entry_count, hc]
      rcases Nat.le_total S 512 with h | h
      · split <;> omega
      · split <;> omega
    have := ih (log_entry lb r.1 r.2) (S + (1 + r.2.length))
      (fun q hq => hlen q (List.mem_cons_of_mem r hq)) hstep
    show (log_entries (log_entry lb r.1 r.2) rest).count = _
    rw [this]
    have : sumTotals (r :: rest) = (1 + r.2.length) + sumTotals rest := by
      simp [sumTotals]
    rw [this]
    congr 1
    omega

/-- `streamOf` of a list of (type, one-byte-payload) records generated
from an index range is the corresponding flat range map. -/
theorem streamOf_pairs (f : Nat → Nat) (n : Nat) :
    streamOf ((List.range n).map (fun k => (f (2 * k), [f (2 * k + 1)]))) =
      (List.range (2 * n)).map f := by
  induction n with
  | zero => rfl
  | succ m ih =>
    rw [List.range_succ, List.map_append, show 2 * (m + 1) = 2 * m + 1 + 1 by omega,
      List.range_succ, List.range_succ]
    have hs : ∀ (A B : List (Nat × List Nat)), streamOf (A ++ B) =
        streamOf A ++ streamOf B := by
      intro A B; simp [streamOf]
    rw [hs, ih]
    simp [streamOf]

theorem sumTotals_pairs (f : Nat → Nat) (n : Nat) :
    sumTotals ((List.range n).map (fun k => (f (2 * k), [f (2 * k + 1)]))) = 2 * n := by
  induction n with
  | zero => rfl
  | succ m ih =>
    rw [List.range_succ, List.map_append]
    have hs : ∀ (A B : List (Nat × List Nat)), sumTotals (A ++ B) =
        sumTotals A + sumTotals B := by
      intro A B; simp [sumTotals]
    rw [hs, ih]
    simp [sumTotals]
    omega

/-- The slice bytes of a log-read response, in closed form. -/
theorem handle_log_read_slice (lb : LogBuf) (buf : Nat → Nat) (i : Nat)
    (hi : i < 56) :
    (handle_log_read lb buf).1 (8 + i) =
      if buf 3 * 56 + i < 512 then lb.data ((buf 3 * 56 + i) % 512) else 0 := by
  simp only [handle_log_read, LOG_BUF_SIZE]
  rw [if_neg (show ¬(8 + i = 0) by omega), if_neg (show ¬(8 + i = 3) by omega),
    if_neg (show ¬(8 + i = 4) by omega), if_neg (show ¬(8 + i = 5) by omega),
    if_neg (show ¬(8 + i = 6) by omega), if_neg (show ¬(8 + i = 7) by omega),
    if_pos (show 8 ≤ 8 + i ∧ 8 + i < 64 by omega),
    show 8 + i - 8 = i from by omega]

/-! ## C8: LogRing saturation and readback -/

set_option maxRecDepth 8192 in
/-- C8: the LogRing byte counter never exceeds the 512-byte capacity
under any sequence of appended records (payloads are at most 255 bytes,
the uint8 length bound); in particular, after writing the 600
one-byte-payload records `c8Records` (1200 bytes) into the zeroed
512-byte ring the count equals 512, and reading back the pages
reconstructs the most recent 512 stream bytes in order: for each
k < 512, the response byte of the page holding ring index
(head + k) % 512 equals stream byte (1200 - 512) + k. -/
theorem log_ring_saturation_c8 :
    (∀ (lb : LogBuf) (rs : List (Nat × List Nat)), lb.count ≤ 512 →
        (∀ r ∈ rs, r.2.length ≤ 255) → (log_entries lb rs).count ≤ 512) ∧
    c8Final.count = 512 ∧
    (∀ k, k < 512 →
      (handle_log_read c8Final (c8Page ((c8Final.head + k) % 512 / 56))).1
          (8 + ((c8Final.head + k) % 512) % 56) =
        c8Stream.getD (688 + k) 0) := by
  have hcf : c8Final = log_entries zeroLogBuf c8Records := rfl
  have hlen : ∀ r ∈ c8Records, r.2.length ≤ 255 := by
    intro r hr
    simp only [c8Records, List.mem_map] at hr
    obtain ⟨n, _, rfl⟩ := hr
    simp
  have hstream : streamOf c8Records = c8Stream := by
    have := streamOf_pairs c8Byte 600
    simpa [c8Records, c8Stream] using this
  have hslen : c8Stream.length = 1200 := by simp [c8Stream]
  have hcount : c8Final.count = 512 := by
    have hmin := log_entries_count_min c8Records zeroLogBuf 0 hlen (by decide)
    have hsum : sumTotals c8Records = 1200 := by
      have := sumTotals_pairs c8Byte 600
      simpa [c8Records] using this
    rw [hsum] at hmin
    simpa using hmin
  have hhead : c8Final.head = 176 := by
    have h1 := (log_entries_shape c8Records zeroLogBuf).2
    have h2 := writeBytes_head zeroLogBuf (streamOf c8Records) (by decide)
    rw [hstream] at h1 h2
    rw [hslen] at h2
    rw [hcf, h1, h2]
    decide
  refine ⟨fun lb rs h1 h2 => log_entries_count_le rs lb h1 h2, hcount, ?_⟩
  intro k hk
  have hdata : c8Final.data = (writeBytes zeroLogBuf c8Stream).data := by
    have h1 := (log_entries_shape c8Records zeroLogBuf).1
    rw [hstream] at h1
    rw [hcf, h1]
  set x := (c8Final.head + k) % 512 with hxdef
  have hx : x < 512 := by rw [hxdef]; exact Nat.mod_lt _ (by omega)
  have hx56 : x % 56 < 56 := Nat.mod_lt _ (by omega)
  rw [handle_log_read_slice c8Final (c8Page (x / 56)) (x % 56) hx56]
  rw [show c8Page (x / 56) 3 = x / 56 from rfl]
  rw [show x / 56 * 56 + x % 56 = x from by omega]
  rw [if_pos hx, Nat.mod_eq_of_lt hx]
  rw [hdata]
  have hplace := writeBytes_data_last c8Stream zeroLogBuf (688 + k) (by decide)
    (by rw [hslen]; omega) (by rw [hslen]; omega)
  have hzero : zeroLogBuf.head = 0 := rfl
  rw [hzero] at hplace
  rw [show x = (0 + (688 + k)) % 512 from by rw [hxdef, hhead]; omega]
  exact hplace

set_option maxRecDepth 8192 in
/-- C8 witness: the saturation bound applied to the concrete 600-record
sequence, and the readback equation at k = 0. -/
theorem log_ring_saturation_c8_witness :
    (zeroLogBuf.count ≤ 512) ∧
    (log_entries zeroLogBuf c8Records).count ≤ 512 ∧
    (handle_log_read c8Final (c8Page ((c8Final.head + 0) % 512 / 56))).1
        (8 + ((c8Final.head + 0) % 512) % 56) = c8Stream.getD (688 + 0) 0 :=
  ⟨by decide,
   log_ring_saturation_c8.1 zeroLogBuf c8Records (by decide)
     (fun r hr => by
       simp only [c8Records, List.mem_map] at hr
       obtain ⟨n, _, rfl⟩ := hr
       simp),
   log_ring_saturation_c8.2.2 0 (by omega)⟩

/-! ## LED stream helper lemmas -/

theorem encTriple_length (g r b : Nat) :
    (encode_ws2812_byte g ++ encode_ws2812_byte r ++ encode_ws2812_byte b).length = 24 :=
  rfl

set_option maxRecDepth 4096 in
theorem decode8_encode : ∀ v, v < 256 → decode8 (encode_ws2812_byte v) = v := by
  decide

/-- One loop iteration of a data page coincides with the
position-indexed write at logical position `p * 18 + i`. -/
theorem pageWriteStep_eq_posWrite (posTbl : Nat → Nat) (bufs : Nat → Nat → Nat)
    (p : Nat) (frame : Nat → Nat) (i : Nat) (hi : i < 18) :
    pageWriteStep posTbl (bufs p) (p * 18) frame i =
      posWrite posTbl bufs frame (p * 18 + i) := by
  have h1 : (p * 18 + i) / 18 = p := by omega
  have h2 : (p * 18 + i) % 18 = i := by omega
  unfold pageWriteStep posWrite
  rw [h1, h2]

/-- A whole data-page loop is the fold of position-indexed writes over
the mapped index range. -/
theorem pageFold_eq (posTbl : Nat → Nat) (bufs : Nat → Nat → Nat) (p : Nat)
    (frame : Nat → Nat) (n : Nat) (hn : n ≤ 18) :
    (List.range n).foldl (pageWriteStep posTbl (bufs p) (p * 18)) frame =
      ((List.range n).map (fun i => p * 18 + i)).foldl (posWrite posTbl bufs) frame := by
  rw [List.foldl_map]
  refine (List.foldl_ext _ _ frame ?_).symm
  intro f i hi
  exact (pageWriteStep_eq_posWrite posTbl bufs p f i
    (lt_of_lt_of_le (List.mem_range.mp hi) hn)).symm

/-- Positions whose 24-byte blocks all avoid `x` leave `x` untouched. -/
theorem posFold_pres (posTbl : Nat → Nat) (bufs : Nat → Nat → Nat) :
    ∀ (l : List Nat) (f : Nat → Nat) (x : Nat),
      (∀ q ∈ l, posTbl q < 82 → ¬(posTbl q * 24 ≤ x ∧ x < posTbl q * 24 + 24)) →
      l.foldl (posWrite posTbl bufs) f x = f x := by
  intro l
  induction l with
  | nil => intro f x _; rfl
  | cons a t ih =>
    intro f x h
    rw [List.foldl_cons,
      ih (posWrite posTbl bufs f a) x (fun q hq => h q (List.mem_cons_of_mem a hq))]
    unfold posWrite LED_COUNT
    split
    · rfl
    · next hstrip =>
      unfold writeBlock
      rw [encTriple_length]
      exact if_neg (h a (List.mem_cons_self a t) (by omega))

/-- The write of position `pos` survives the rest of the fold when no
other listed position shares its strip index. -/
theorem posFold_value (posTbl : Nat → Nat) (bufs : Nat → Nat → Nat) :
    ∀ (l : List Nat) (f : Nat → Nat) (pos j : Nat),
      l.Nodup → pos ∈ l → posTbl pos < 82 → j < 24 →
      (∀ q ∈ l, posTbl q < 82 → posTbl q = posTbl pos → q = pos) →
      l.foldl (posWrite posTbl bufs) f (posTbl pos * 24 + j) =
        (encode_ws2812_byte (bufs (pos / 18) (4 + pos % 18 * 3 + 1)) ++
         encode_ws2812_byte (bufs (pos / 18) (4 + pos % 18 * 3)) ++
         encode_ws2812_byte (bufs (pos / 18) (4 + pos % 18 * 3 + 2))).getD j 0 := by
  intro l
  induction l with
  | nil => intro f pos j _ hmem; exact absurd hmem (List.not_mem_nil pos)
  | cons a t ih =>
    intro f pos j hnd hmem hstrip hj huniq
    have hnd' := List.nodup_cons.mp hnd
    rw [List.foldl_cons]
    rcases List.mem_cons.mp hmem with rfl | hmem'
    · -- the head is the target position: write it, rest preserves it
      rw [posFold_pres posTbl bufs t (posWrite posTbl bufs f pos) (posTbl pos * 24 + j) ?_]
      · unfold posWrite LED_COUNT
        rw [if_neg (by omega)]
        unfold writeBlock
        rw [encTriple_length,
          if_pos ⟨Nat.le_add_right _ _, by omega⟩,
          show posTbl pos * 24 + j - posTbl pos * 24 = j from by omega]
      · intro q hq hq82 hblock
        have hne : q ≠ pos := fun he => hnd'.1 (he ▸ hq)
        have : posTbl q ≠ posTbl pos := fun he =>
          hne (huniq q (List.mem_cons_of_mem pos hq) hq82 he)
        omega
    · -- the target lies further in the list
      exact ih (posWrite posTbl bufs f a) pos j hnd'.2 hmem' hstrip hj
        (fun q hq => huniq q (List.mem_cons_of_mem a hq))

/-- Every byte a data-page loop changes lies inside the 24-byte block
of some in-range, non-sentinel position of the page. -/
theorem pageFold_writes (posTbl : Nat → Nat) (buf : Nat → Nat) (start : Nat) :
    ∀ (l : List Nat) (f : Nat → Nat) (x : Nat),
      l.foldl (pageWriteStep posTbl buf start) f x ≠ f x →
      ∃ i ∈ l, posTbl (start + i) < 82 ∧ posTbl (start + i) * 24 ≤ x ∧
        x < posTbl (start + i) * 24 + 24 := by
  intro l
  induction l with
  | nil => intro f x hx; exact absurd rfl hx
  | cons a t ih =>
    intro f x hx
    rw [List.foldl_cons] at hx
    by_cases h1 : t.foldl (pageWriteStep posTbl buf start)
        (pageWriteStep posTbl buf start f a) x = pageWriteStep posTbl buf start f a x
    · rw [h1] at hx
      refine ⟨a, List.mem_cons_self a t, ?_⟩
      by_contra hcon
      apply hx
      simp only [pageWriteStep, LED_COUNT]
      split
      · rfl
      · next hstrip =>
        simp only [writeBlock]
        rw [encTriple_length]
        refine if_neg (fun hin => hcon ?_)
        exact ⟨by omega, hin.1, hin.2⟩
    · obtain ⟨i, hi, hrest⟩ := ih (pageWriteStep posTbl buf start f a) x h1
      exact ⟨i, List.mem_cons_of_mem a hi, hrest⟩

/-- Projection equations of `handle_led_stream` on a data page. -/
theorem led_data_page_frame (posTbl : Nat → Nat) (st : LedState) (buf : Nat → Nat)
    (hp : buf 3 < 7) :
    (handle_led_stream posTbl st buf).1.frame =
      (List.range (min 18 (96 - buf 3 * 18))).foldl
        (pageWriteStep posTbl buf (buf 3 * 18)) st.frame ∧
    (handle_led_stream posTbl st buf).2.2 = 1 ∧
    (handle_led_stream posTbl st buf).2.1 = setByte buf 0 0 ∧
    (handle_led_stream posTbl st buf).1.stream_active ≠ 0 ∧
    (handle_led_stream posTbl st buf).1.dma = st.dma ∧
    (st.stream_active = 0 →
      (handle_led_stream posTbl st buf).1.saved_led_effect_mode = st.led_effect_mode ∧
      (handle_led_stream posTbl st buf).1.led_effect_mode = 0xFF ∧
      (handle_led_stream posTbl st buf).1.stream_active = 1) ∧
    (st.stream_active ≠ 0 →
      (handle_led_stream posTbl st buf).1.saved_led_effect_mode =
        st.saved_led_effect_mode ∧
      (handle_led_stream posTbl st buf).1.led_effect_mode = st.led_effect_mode ∧
      (handle_led_stream posTbl st buf).1.stream_active = st.stream_active) := by
  simp only [handle_led_stream, MATRIX_LEN]
  rw [if_neg (show ¬(buf 3 = 0xFF) by omega), if_neg (show ¬(buf 3 = 0xFE) by omega),
    if_pos hp]
  by_cases hsa : st.stream_active = 0
  · rw [if_pos hsa]
    exact ⟨rfl, rfl, rfl, Nat.one_ne_zero, rfl,
      fun _ => ⟨rfl, rfl, rfl⟩, fun h => absurd hsa h⟩
  · rw [if_neg hsa]
    exact ⟨rfl, rfl, rfl, hsa, rfl, fun h => absurd h hsa,
      fun _ => ⟨rfl, rfl, rfl⟩⟩

/-- `handle_led_stream` on the commit page. -/
theorem led_commit (posTbl : Nat → Nat) (st : LedState) (buf : Nat → Nat)
    (hc : buf 3 = 0xFF) :
    handle_led_stream posTbl st buf =
      ({ st with dma := fun j => if j < LED_BUF_SIZE then st.frame j else st.dma j },
       setByte buf 0 0, 1) := by
  unfold handle_led_stream
  rw [hc, if_pos rfl]

/-- `handle_led_stream` on the release page. -/
theorem led_release (posTbl : Nat → Nat) (st : LedState) (buf : Nat → Nat)
    (hr : buf 3 = 0xFE) :
    handle_led_stream posTbl st buf =
      (if st.stream_active ≠ 0 then
        { st with stream_active := 0, led_effect_mode := st.saved_led_effect_mode }
       else st, setByte buf 0 0, 1) := by
  unfold handle_led_stream
  rw [hr, if_neg (by omega), if_pos rfl]

/-- Decoding the three 8-byte channel groups of a written 24-byte block
recovers the three submitted byte values (wire order G, R, B). -/
theorem decode_channels (F : Nat → Nat) (base g r b : Nat)
    (hg : g < 256) (hr : r < 256) (hbb : b < 256)
    (h : ∀ j, j < 24 → F (base + j) =
      (encode_ws2812_byte g ++ encode_ws2812_byte r ++ encode_ws2812_byte b).getD j 0) :
    decode8 ((List.range 8).map (fun j => F (base + j))) = g ∧
    decode8 ((List.range 8).map (fun j => F (base + 8 + j))) = r ∧
    decode8 ((List.range 8).map (fun j => F (base + 16 + j))) = b := by
  have hlen : ∀ v : Nat, (encode_ws2812_byte v).length = 8 := fun v => rfl
  refine ⟨?_, ?_, ?_⟩
  · have hlist : (List.range 8).map (fun j => F (base + j)) = encode_ws2812_byte g := by
      refine List.ext_getElem (by simp [hlen]) ?_
      intro i h1 h2
      simp only [List.getElem_map, List.getElem_range]
      rw [h i (by simp at h1; omega),
        List.getD_append _ _ _ _ (by rw [List.length_append, hlen, hlen]; simp at h1; omega),
        List.getD_append _ _ _ _ (by rw [hlen]; simp at h1; omega),
        List.getD_eq_getElem _ _ (by rw [hlen]; simp at h1; omega)]
    rw [hlist]
    exact decode8_encode g hg
  · have hlist : (List.range 8).map (fun j => F (base + 8 + j)) = encode_ws2812_byte r := by
      refine List.ext_getElem (by simp [hlen]) ?_
      intro i h1 h2
      simp only [List.getElem_map, List.getElem_range]
      rw [show base + 8 + i = base + (8 + i) from by omega,
        h (8 + i) (by simp at h1; omega),
        List.getD_append _ _ _ _ (by rw [List.length_append, hlen, hlen]; simp at h1; omega),
        List.getD_append_right _ _ _ _ (by rw [hlen]; omega),
        List.getD_eq_getElem _ _ (by rw [hlen]; simp at h1; omega)]
      congr 1
      rw [hlen]
      omega
    rw [hlist]
    exact decode8_encode r hr
  · have hlist : (List.range 8).map (fun j => F (base + 16 + j)) = encode_ws2812_byte b := by
      refine List.ext_getElem (by simp [hlen]) ?_
      intro i h1 h2
      simp only [List.getElem_map, List.getElem_range]
      rw [show base + 16 + i = base + (16 + i) from by omega,
        h (16 + i) (by simp at h1; omega),
        List.getD_append_right _ _ _ _ (by rw [List.length_append, hlen, hlen]; omega),
        List.getD_eq_getElem _ _ (by rw [List.length_append, hlen, hlen]; rw [hlen]; simp at h1; omega)]
      congr 1
      rw [List.length_append, hlen, hlen]
      omega
    rw [hlist]
    exact decode8_encode b hbb

/-! ## C10: data-page writes stay inside the frame buffer -/

/-- C10: for every led-stream data-page write (page below 7), every
frame-buffer byte the handler changes lies strictly below the 1968-byte
buffer size and inside the 24-byte block at strip_idx * 24 of some loop
position: an index i < 18 with logical position page*18 + i below the
96-entry matrix whose mapped strip index is below 82 (positions mapped
at 82 or above are skipped); a data page whose logical positions all
lie at or beyond the matrix length changes nothing yet still returns
handled and leaves the engine in the Streaming state. -/
theorem led_page_write_in_bounds_c10 (posTbl : Nat → Nat) (st : LedState)
    (buf : Nat → Nat) (hp : buf 3 < 7) :
    (∀ x, (handle_led_stream posTbl st buf).1.frame x ≠ st.frame x →
      x < 1968 ∧ ∃ i, i < 18 ∧ buf 3 * 18 + i < 96 ∧
        posTbl (buf 3 * 18 + i) < 82 ∧
        posTbl (buf 3 * 18 + i) * 24 ≤ x ∧ x < posTbl (buf 3 * 18 + i) * 24 + 24) ∧
    (handle_led_stream posTbl st buf).2.2 = 1 ∧
    (handle_led_stream posTbl st buf).1.stream_active ≠ 0 ∧
    (96 ≤ buf 3 * 18 → (handle_led_stream posTbl st buf).1.frame = st.frame) := by
  have h := led_data_page_frame posTbl st buf hp
  refine ⟨?_, h.2.1, h.2.2.2.1, ?_⟩
  · intro x hx
    rw [h.1] at hx
    obtain ⟨i, hi, h82, hlo, hhi⟩ :=
      pageFold_writes posTbl buf (buf 3 * 18) _ st.frame x hx
    have hi' := List.mem_range.mp hi
    exact ⟨by omega, i, by omega, by omega, h82, hlo, hhi⟩
  · intro h96
    rw [h.1, show min 18 (96 - buf 3 * 18) = 0 from by omega]
    rfl

/-- C10 witness: the theorem applied to page 6 (start position 108, at
or beyond the 96-entry matrix) with a concrete engine state. -/
theorem led_page_write_in_bounds_c10_witness :
    ((fun j => if j = 3 then 6 else (0 : Nat)) 3 < 7) ∧
    ((∀ x, (handle_led_stream (fun _ => 0) zeroLed
          (fun j => if j = 3 then 6 else 0)).1.frame x ≠ zeroLed.frame x →
        x < 1968 ∧ ∃ i, i < 18 ∧
          (fun j => if j = 3 then 6 else (0 : Nat)) 3 * 18 + i < 96 ∧
          (fun _ => (0 : Nat)) ((fun j => if j = 3 then 6 else (0 : Nat)) 3 * 18 + i) < 82 ∧
          (fun _ => (0 : Nat)) ((fun j => if j = 3 then 6 else (0 : Nat)) 3 * 18 + i) * 24 ≤ x ∧
          x < (fun _ => (0 : Nat)) ((fun j => if j = 3 then 6 else (0 : Nat)) 3 * 18 + i) * 24 + 24) ∧
      (handle_led_stream (fun _ => 0) zeroLed (fun j => if j = 3 then 6 else 0)).2.2 = 1 ∧
      (handle_led_stream (fun _ => 0) zeroLed (fun j => if j = 3 then 6 else 0)).1.stream_active ≠ 0 ∧
      (96 ≤ (fun j => if j = 3 then 6 else (0 : Nat)) 3 * 18 →
        (handle_led_stream (fun _ => 0) zeroLed
          (fun j => if j = 3 then 6 else 0)).1.frame = zeroLed.frame)) :=
  ⟨by decide,
   led_page_write_in_bounds_c10 (fun _ => 0) zeroLed
     (fun j => if j = 3 then 6 else 0) (by decide)⟩

/-- State evolution of a run of data pages: the frame accumulates the
position-indexed writes of all pages in order; the display buffer is
untouched; an already-streaming engine keeps its saved/current mode;
an engine starting Released captures the current animation mode at the
first page write, suppresses it with the 0xFF sentinel, and is left
Streaming. -/
theorem ledRun_data_pages (posTbl : Nat → Nat) (bufs : Nat → Nat → Nat) :
    ∀ (ps : List Nat) (st : LedState),
      (∀ p ∈ ps, bufs p 3 = p ∧ p < 7) →
      (ledRun posTbl st (ps.map bufs)).frame =
        ((ps.map (fun p => (List.range (min 18 (96 - p * 18))).map
          (fun i => p * 18 + i))).flatten).foldl (posWrite posTbl bufs) st.frame ∧
      (ledRun posTbl st (ps.map bufs)).dma = st.dma ∧
      (st.stream_active ≠ 0 →
        (ledRun posTbl st (ps.map bufs)).stream_active = st.stream_active ∧
        (ledRun posTbl st (ps.map bufs)).saved_led_effect_mode =
          st.saved_led_effect_mode ∧
        (ledRun posTbl st (ps.map bufs)).led_effect_mode = st.led_effect_mode) ∧
      (st.stream_active = 0 → ps ≠ [] →
        (ledRun posTbl st (ps.map bufs)).stream_active ≠ 0 ∧
        (ledRun posTbl st (ps.map bufs)).saved_led_effect_mode =
          st.led_effect_mode ∧
        (ledRun posTbl st (ps.map bufs)).led_effect_mode = 0xFF) := by
  intro ps
  induction ps with
  | nil =>
    intro st _
    exact ⟨rfl, rfl, fun _ => ⟨rfl, rfl, rfl⟩, fun _ hne => absurd rfl hne⟩
  | cons p ps ih =>
    intro st hps
    have hpp := hps p (List.mem_cons_self p ps)
    have hp7 : bufs p 3 < 7 := by rw [hpp.1]; exact hpp.2
    have hh := led_data_page_frame posTbl st (bufs p) hp7
    rw [hpp.1] at hh
    have key := ih (handle_led_stream posTbl st (bufs p)).1
      (fun q hq => hps q (List.mem_cons_of_mem p hq))
    simp only [List.map_cons, ledRun]
    refine ⟨?_, ?_, ?_, ?_⟩
    · rw [key.1, hh.1,
        pageFold_eq posTbl bufs p st.frame (min 18 (96 - p * 18)) (min_le_left _ _),
        ← List.foldl_append, List.flatten_cons]
    · rw [key.2.1, hh.2.2.2.2.1]
    · intro hsa
      obtain ⟨hsaved, hmode, hsa'⟩ := hh.2.2.2.2.2.2 hsa
      obtain ⟨k1, k2, k3⟩ := key.2.2.1 (by rw [hsa']; exact hsa)
      exact ⟨by rw [k1, hsa'], k2.trans hsaved, k3.trans hmode⟩
    · intro hsa0 _
      obtain ⟨hsaved, hmode, hsa'⟩ := hh.2.2.2.2.2.1 hsa0
      obtain ⟨k1, k2, k3⟩ := key.2.2.1 (by rw [hsa']; exact Nat.one_ne_zero)
      exact ⟨by rw [k1, hsa']; exact Nat.one_ne_zero, k2.trans hsaved, k3.trans hmode⟩

/-! ## C3: streaming round-trip -/

set_option maxRecDepth 4096 in
/-- C3: starting Released, after writing data pages 0..5 (covering all
96 logical positions, position map injective on non-sentinel entries,
byte-valued payloads) and issuing commit, the Display Buffer decodes —
8 pulse bytes per channel, MSB first, 0xF0 for a 1-bit and 0xC0 for a
0-bit, channels in the wire-native G,R,B order — to exactly the
submitted RGB values at every non-sentinel position, and every display
byte outside the written blocks (in particular everything sentinel
positions would cover) is unchanged; a release command issued
afterwards restores the animation-mode value saved at the first
data-page write and returns the engine to Released. -/
theorem led_stream_roundtrip_c3
    (posTbl : Nat → Nat) (st0 : LedState) (bufs : Nat → Nat → Nat)
    (cbuf rbuf : Nat → Nat)
    (hst : st0.stream_active = 0)
    (hinj : ∀ p q, p < 96 → q < 96 → posTbl p < 82 → posTbl q < 82 →
      posTbl p = posTbl q → p = q)
    (hb : ∀ p, p < 6 → bufs p 3 = p)
    (hbytes : ∀ p j, bufs p j < 256)
    (hcommit : cbuf 3 = 0xFF) (hrel : rbuf 3 = 0xFE)
    (hconsist : ∀ x, x < 1968 → st0.dma x = st0.frame x) :
    (∀ pos, pos < 96 → posTbl pos < 82 →
      decode8 ((List.range 8).map
          (fun j => (c3Run posTbl st0 bufs cbuf).dma (posTbl pos * 24 + j))) =
        bufs (pos / 18) (4 + pos % 18 * 3 + 1) ∧
      decode8 ((List.range 8).map
          (fun j => (c3Run posTbl st0 bufs cbuf).dma (posTbl pos * 24 + 8 + j))) =
        bufs (pos / 18) (4 + pos % 18 * 3) ∧
      decode8 ((List.range 8).map
          (fun j => (c3Run posTbl st0 bufs cbuf).dma (posTbl pos * 24 + 16 + j))) =
        bufs (pos / 18) (4 + pos % 18 * 3 + 2)) ∧
    (∀ x, x < 1968 →
      (∀ pos, pos < 96 → posTbl pos < 82 →
        ¬(posTbl pos * 24 ≤ x ∧ x < posTbl pos * 24 + 24)) →
      (c3Run posTbl st0 bufs cbuf).dma x = st0.dma x) ∧
    (handle_led_stream posTbl (c3Run posTbl st0 bufs cbuf) rbuf).1.led_effect_mode =
      st0.led_effect_mode ∧
    (handle_led_stream posTbl (c3Run posTbl st0 bufs cbuf) rbuf).1.stream_active = 0 := by
  have hps : ∀ p ∈ [0, 1, 2, 3, 4, 5], bufs p 3 = p ∧ p < 7 := by
    intro p hp
    have hp6 : p < 6 := by simp [List.mem_cons] at hp; omega
    exact ⟨hb p hp6, by omega⟩
  have hdp := ledRun_data_pages posTbl bufs [0, 1, 2, 3, 4, 5] st0 hps
  have hflat : (([0, 1, 2, 3, 4, 5] : List Nat).map
      (fun p => (List.range (min 18 (96 - p * 18))).map (fun i => p * 18 + i))).flatten =
      List.range 96 := by decide
  rw [hflat] at hdp
  have hsplit : c3Run posTbl st0 bufs cbuf =
      (handle_led_stream posTbl
        (ledRun posTbl st0 (([0, 1, 2, 3, 4, 5] : List Nat).map bufs)) cbuf).1 := rfl
  have hcommitEq := led_commit posTbl
    (ledRun posTbl st0 (([0, 1, 2, 3, 4, 5] : List Nat).map bufs)) cbuf hcommit
  have hdma : ∀ x, (c3Run posTbl st0 bufs cbuf).dma x =
      if x < LED_BUF_SIZE then
        (ledRun posTbl st0 (([0, 1, 2, 3, 4, 5] : List Nat).map bufs)).frame x
      else (ledRun posTbl st0 (([0, 1, 2, 3, 4, 5] : List Nat).map bufs)).dma x := by
    intro x
    rw [hsplit, hcommitEq]
  have hsix := hdp.2.2.2 hst (by simp)
  have hsa' : (c3Run posTbl st0 bufs cbuf).stream_active ≠ 0 := by
    rw [hsplit, hcommitEq]
    exact hsix.1
  have hsaved : (c3Run posTbl st0 bufs cbuf).saved_led_effect_mode =
      st0.led_effect_mode := by
    rw [hsplit, hcommitEq]
    exact hsix.2.1
  refine ⟨?_, ?_, ?_, ?_⟩
  · intro pos hpos h82
    have hblock : ∀ j, j < 24 →
        (c3Run posTbl st0 bufs cbuf).dma (posTbl pos * 24 + j) =
          (encode_ws2812_byte (bufs (pos / 18) (4 + pos % 18 * 3 + 1)) ++
           encode_ws2812_byte (bufs (pos / 18) (4 + pos % 18 * 3)) ++
           encode_ws2812_byte (bufs (pos / 18) (4 + pos % 18 * 3 + 2))).getD j 0 := by
      intro j hj
      rw [hdma, if_pos (show posTbl pos * 24 + j < LED_BUF_SIZE by
        unfold LED_BUF_SIZE; omega)]
      rw [hdp.1]
      exact posFold_value posTbl bufs (List.range 96) st0.frame pos j
        (List.nodup_range 96) (List.mem_range.mpr hpos) h82 hj
        (fun q hq hq82 he => hinj q pos (List.mem_range.mp hq) hpos hq82 h82 he)
    exact decode_channels (c3Run posTbl st0 bufs cbuf).dma (posTbl pos * 24)
      (bufs (pos / 18) (4 + pos % 18 * 3 + 1))
      (bufs (pos / 18) (4 + pos % 18 * 3))
      (bufs (pos / 18) (4 + pos % 18 * 3 + 2))
      (hbytes _ _) (hbytes _ _) (hbytes _ _) hblock
  · intro x hx hnone
    rw [hdma, if_pos (show x < LED_BUF_SIZE by unfold LED_BUF_SIZE; omega)]
    rw [hdp.1]
    rw [posFold_pres posTbl bufs (List.range 96) st0.frame x
      (fun q hq => hnone q (List.mem_range.mp hq))]
    exact (hconsist x hx).symm
  · rw [led_release posTbl (c3Run posTbl st0 bufs cbuf) rbuf hrel, if_pos hsa']
    exact hsaved
  · rw [led_release posTbl (c3Run posTbl st0 bufs cbuf) rbuf hrel, if_pos hsa']

set_option maxRecDepth 4096 in
/-- C3 witness: the round-trip theorem applied to a concrete position
map, page payloads, commit and release mailboxes, starting from the
zeroed Released engine. -/
theorem led_stream_roundtrip_c3_witness :
    (zeroLed.stream_active = 0 ∧ c3Cbuf 3 = 0xFF ∧ c3Rbuf 3 = 0xFE) ∧
    ((∀ pos, pos < 96 → c3PosTbl pos < 82 →
      decode8 ((List.range 8).map
          (fun j => (c3Run c3PosTbl zeroLed c3Bufs c3Cbuf).dma (c3PosTbl pos * 24 + j))) =
        c3Bufs (pos / 18) (4 + pos % 18 * 3 + 1) ∧
      decode8 ((List.range 8).map
          (fun j => (c3Run c3PosTbl zeroLed c3Bufs c3Cbuf).dma (c3PosTbl pos * 24 + 8 + j))) =
        c3Bufs (pos / 18) (4 + pos % 18 * 3) ∧
      decode8 ((List.range 8).map
          (fun j => (c3Run c3PosTbl zeroLed c3Bufs c3Cbuf).dma (c3PosTbl pos * 24 + 16 + j))) =
        c3Bufs (pos / 18) (4 + pos % 18 * 3 + 2)) ∧
    (∀ x, x < 1968 →
      (∀ pos, pos < 96 → c3PosTbl pos < 82 →
        ¬(c3PosTbl pos * 24 ≤ x ∧ x < c3PosTbl pos * 24 + 24)) →
      (c3Run c3PosTbl zeroLed c3Bufs c3Cbuf).dma x = zeroLed.dma x) ∧
    (handle_led_stream c3PosTbl (c3Run c3PosTbl zeroLed c3Bufs c3Cbuf) c3Rbuf).1.led_effect_mode =
      zeroLed.led_effect_mode ∧
    (handle_led_stream c3PosTbl (c3Run c3PosTbl zeroLed c3Bufs c3Cbuf) c3Rbuf).1.stream_active = 0) :=
  ⟨⟨rfl, rfl, rfl⟩,
   led_stream_roundtrip_c3 c3PosTbl zeroLed c3Bufs c3Cbuf c3Rbuf rfl
     (by
       intro p q hp hq hp82 hq82 he
       unfold c3PosTbl at hp82 hq82 he
       by_cases h1 : p < 82 <;> by_cases h2 : q < 82 <;>
         simp [h1, h2] at hp82 hq82 he <;> omega)
     (by decide)
     (fun p j => by
       unfold c3Bufs
       split
       · exact Nat.mod_lt _ (by omega)
       · exact Nat.mod_lt _ (by omega))
     rfl rfl (fun x _ => rfl)⟩

/-! ## LogRing state invariant

`log_read_response_c7`'s hypotheses (count within capacity, head inside
the ring, bytes beyond the logical end still zero) hold in every state
reachable from the zero-initialized ring: the zero state satisfies them
and every `log_entry` preserves them. -/

theorem writeBytes_untouched (L : List Nat) (lb : LogBuf) (j : Nat)
    (hh : lb.head < 512) (h : ∀ i, i < L.length → (lb.head + i) % 512 ≠ j) :
    (writeBytes lb L).data j = lb.data j := by
  induction L generalizing lb with
  | nil => rfl
  | cons b L ih =>
    have hne : j ≠ lb.head := by
      have h0 := h 0 (by simp)
      rw [Nat.add_zero, Nat.mod_eq_of_lt hh] at h0
      exact fun he => h0 he.symm
    have hh' : (lrWriteByte lb b).head < 512 := by
      show (lb.head + 1) % LOG_BUF_SIZE < 512
      unfold LOG_BUF_SIZE
      exact Nat.mod_lt _ (by omega)
    have hi' : ∀ i, i < L.length → ((lrWriteByte lb b).head + i) % 512 ≠ j := by
      intro i hiL
      have hsucc := h (i + 1) (by simp; omega)
      show ((lb.head + 1) % LOG_BUF_SIZE + i) % 512 ≠ j
      unfold LOG_BUF_SIZE
      have heq : ((lb.head + 1) % 512 + i) % 512 = (lb.head + (i + 1)) % 512 := by
        omega
      rw [heq]
      exact hsucc
    show (writeBytes (lrWriteByte lb b) L).data j = _
    rw [ih (lrWriteByte lb b) hh' hi']
    show (if j = lb.head then b else lb.data j) = lb.data j
    rw [if_neg hne]

/-- Every `log_entry` (with the uint8 payload-length bound) preserves
the reachable-state invariant of the ring. -/
theorem log_entry_preserves_inv (lb : LogBuf) (t : Nat) (p : List Nat)
    (hp : p.length ≤ 255) (h1 : lb.count ≤ 512) (h2 : lb.head < 512)
    (h3 : lb.count < 512 → lb.head = lb.count ∧
      ∀ j, lb.count ≤ j → j < 512 → lb.data j = 0) :
    (log_entry lb t p).count ≤ 512 ∧ (log_entry lb t p).head < 512 ∧
    ((log_entry lb t p).count < 512 →
      (log_entry lb t p).head = (log_entry lb t p).count ∧
      ∀ j, (log_entry lb t p).count ≤ j → j < 512 → (log_entry lb t p).data j = 0) := by
  have hsh := log_entry_shape lb t p
  have hct := log_entry_count lb t p
  have hL : (t :: p).length = p.length + 1 := rfl
  have hhd : (log_entry lb t p).head = (lb.head + (t :: p).length) % 512 :=
    hsh.2.trans (writeBytes_head lb (t :: p) h2)
  refine ⟨by rw [hct]; split <;> omega,
    by rw [hhd]; exact Nat.mod_lt _ (by omega), ?_⟩
  intro hlt
  rcases Nat.lt_or_ge lb.count 512 with hc | hc
  · obtain ⟨hhead_eq, hzero⟩ := h3 hc
    by_cases hfit : lb.count ≤ 512 - (1 + p.length)
    · have hct' : (log_entry lb t p).count = lb.count + (1 + p.length) := by
        rw [hct, if_pos hfit]
      rw [hct'] at hlt
      constructor
      · rw [hhd, hct', hhead_eq, hL, Nat.mod_eq_of_lt (by omega)]
        omega
      · intro j hj hj512
        rw [hct'] at hj
        rw [hsh.1, writeBytes_untouched (t :: p) lb j h2 ?_]
        · exact hzero j (by omega) hj512
        · intro i hi
          rw [hL] at hi
          rw [hhead_eq, Nat.mod_eq_of_lt (by omega)]
          omega
    · have hsat : (log_entry lb t p).count = 512 := by rw [hct, if_neg hfit]
      omega
  · have hsat : (log_entry lb t p).count = 512 := by
      rw [hct, if_neg (by omega)]
    omega

end FwPatch
